import Mathlib

/-!
Verification of the gossip broadcast engine in
`solutions-rust/src/bin/broadcast-efficient-part-2.rs`.

The Rust program is a single-threaded event loop over an inbound queue of
envelopes plus a periodic flush timer.  We embed its state and its
per-envelope dispatch as pure Lean functions:

* `HashMap<String, RemoteNodeHandler>` becomes an association list
  (`RemoteMap`) with Rust `HashMap::insert` semantics (replace or append);
* `HashSet<usize>` (the observed message set) becomes a duplicate-free
  `List Nat` built by appending unseen values;
* a Rust panic (`unwrap` on a missing key, `unimplemented!`) becomes the
  `StepResult.panic` outcome of the dispatch function;
* stdout sends become the list of envelopes returned by the dispatch.

Envelope `msg_id` / `in_reply_to` bookkeeping (a global counter in
`envelope.rs`) is irrelevant to every property below and is omitted from
the envelope record; `reply` keeps its source/destination swap.
-/

namespace BroadcastEff

/-- `const STRIDE: usize = 4;` -/
def STRIDE : Nat := 4

/-- The protocol enum `Message` from the Rust source.  The `topology`
payload is a finite map from node id to neighbor list, embedded as an
association list. -/
inductive Message where
  | init (node_id : String) (node_ids : List String)
  | initOk
  | topology (topology : List (String × List String))
  | topologyOk
  | broadcast (message : Nat)
  | broadcastOk
  | read
  | readOk (messages : List Nat)
  | sync (messages : List Nat)
  | syncOk (messages : List Nat)
deriving Repr, DecidableEq

/-- Transport envelope (`envelope.rs`): source, destination and body.
The body's `msg_id`/`in_reply_to` counters are omitted (see module
comment). -/
structure Envelope where
  src : String
  dest : String
  message : Message
deriving Repr, DecidableEq

/-- `Envelope::reply`: swap source and destination, new body. -/
def Envelope.reply (e : Envelope) (m : Message) : Envelope :=
  { src := e.dest, dest := e.src, message := m }

/-- `struct RemoteNodeHandler { unacknowledged_messages: Vec<usize> }` -/
structure RemoteNodeHandler where
  unacknowledged_messages : List Nat
deriving Repr, DecidableEq

/-- `RemoteNodeHandler::new()` (via `Default`): empty buffer. -/
def RemoteNodeHandler.new : RemoteNodeHandler := ⟨[]⟩

/-- `fn send_message(&mut self, message: usize) { self.unacknowledged_messages.push(message); }` -/
def RemoteNodeHandler.send_message (h : RemoteNodeHandler) (message : Nat) :
    RemoteNodeHandler :=
  ⟨h.unacknowledged_messages ++ [message]⟩

/-- `fn acknowledge_synced(&mut self, messages: &[usize])`:
`retain(|m| !messages.contains(m))`. -/
def RemoteNodeHandler.acknowledge_synced (h : RemoteNodeHandler)
    (messages : List Nat) : RemoteNodeHandler :=
  ⟨h.unacknowledged_messages.filter (fun m => !(messages.contains m))⟩

/-- The `HashMap<String, RemoteNodeHandler>` of the node, as an
association list keyed by node id. -/
abbrev RemoteMap := List (String × RemoteNodeHandler)

/-- `HashMap::get` / `get_mut` lookup (key equality). -/
def RemoteMap.find? (l : RemoteMap) (k : String) : Option RemoteNodeHandler :=
  match l with
  | [] => none
  | p :: rest => if p.1 = k then some p.2 else RemoteMap.find? rest k

/-- In-place update of the value at key `k` (the effect of a successful
`get_mut` followed by a mutation).  Keys absent from the map are
untouched. -/
def RemoteMap.modify (l : RemoteMap) (k : String)
    (f : RemoteNodeHandler → RemoteNodeHandler) : RemoteMap :=
  match l with
  | [] => []
  | p :: rest =>
    (if p.1 = k then (p.1, f p.2) else p) :: RemoteMap.modify rest k f

/-- `HashMap::insert`: replace the value of an existing key, otherwise
append a new entry. -/
def RemoteMap.insert (l : RemoteMap) (k : String) (v : RemoteNodeHandler) :
    RemoteMap :=
  if (RemoteMap.find? l k).isSome then RemoteMap.modify l k (fun _ => v)
  else l ++ [(k, v)]

/-- The mutable state owned by the `main` event loop (the timer deadline,
which never influences any per-envelope effect, is not part of it). -/
structure NodeState where
  remote_node_handlers : RemoteMap
  our_neighbors : List String
  messages : List Nat
  all_node_ids : List String
  our_id : String
deriving Repr, DecidableEq

/-- Startup state: all collections empty, `our_id` defaulted. -/
def NodeState.initial : NodeState :=
  { remote_node_handlers := [], our_neighbors := [], messages := [],
    all_node_ids := [], our_id := "" }

/-- Outcome of dispatching one envelope: the successor state together
with the envelopes written to stdout, or a process-aborting panic
(`unwrap` failure or `unimplemented!`). -/
inductive StepResult where
  | ok (state : NodeState) (sent : List Envelope)
  | panic
deriving Repr, DecidableEq

/-- `Iterator::step_by(s)` as a structural walk: a countdown of `n`
elements is skipped, then the next element is taken and the countdown
restarts at `s - 1`. -/
def stepByAux (s : Nat) : List String → Nat → List String
  | [], _ => []
  | x :: xs, 0 => x :: stepByAux s xs (s - 1)
  | _ :: xs, n + 1 => stepByAux s xs n

/-- `Iterator::step_by(s)`: keep the head, then skip `s - 1` elements,
repeatedly. -/
def stepBy (s : Nat) (l : List String) : List String := stepByAux s l 0

/-- The neighbor list computed by the `Topology` arm for a node at
position `p` of the full node list:
`all_node_ids.iter().skip((p + 1) % STRIDE).step_by(STRIDE)`. -/
def strideNeighbors (all : List String) (p : Nat) : List String :=
  stepBy STRIDE (List.drop ((p + 1) % STRIDE) all)

/-- The fan-out loop body of `Broadcast`/`Sync`: for each neighbor,
`remote_node_handlers.get_mut(neighbor).unwrap().send_message(message)`;
`none` when some lookup panics. -/
def fanout (map : RemoteMap) (neighbors : List String) (message : Nat) :
    Option RemoteMap :=
  match neighbors with
  | [] => some map
  | n :: rest =>
    match RemoteMap.find? map n with
    | none => none
    | some _ =>
      fanout (RemoteMap.modify map n (fun h => h.send_message message)) rest
        message

/-- `if messages.insert(*message) { for neighbor in &our_neighbors { ... } }`:
insert the value into the observed set and, when it is new, enqueue it to
every current neighbor's buffer. -/
def observeAndFanout (st : NodeState) (message : Nat) : Option NodeState :=
  if message ∈ st.messages then some st
  else
    match fanout st.remote_node_handlers st.our_neighbors message with
    | none => none
    | some map =>
      some { st with messages := st.messages ++ [message],
                     remote_node_handlers := map }

/-- The `for &message in inbound { ... }` loop of the `Sync` arm. -/
def syncFold (st : NodeState) (inbound : List Nat) : Option NodeState :=
  match inbound with
  | [] => some st
  | m :: rest =>
    match observeAndFanout st m with
    | none => none
    | some st' => syncFold st' rest

/-- The handler-creating fold of the `Init` arm. -/
def initHandlers (node_ids : List String) (map : RemoteMap) : RemoteMap :=
  node_ids.foldl
    (fun map id => RemoteMap.insert map id RemoteNodeHandler.new) map

/-- Dispatch of one inbound envelope: the `match envelope.message()` in
`main`. -/
def handleEnvelope (st : NodeState) (e : Envelope) : StepResult :=
  match e.message with
  | .init node_id node_ids =>
    let st' : NodeState :=
      { st with
        our_id := node_id,
        all_node_ids := node_ids,
        remote_node_handlers :=
          node_ids.foldl
            (fun map id => RemoteMap.insert map id RemoteNodeHandler.new)
            st.remote_node_handlers }
    .ok st' [e.reply .initOk]
  | .topology _ =>
    -- the payload is discarded by the `Topology { .. }` pattern:
    -- "Don't respect the topology. Just create a custom one."
    match st.all_node_ids.findIdx? (fun node_id => node_id == st.our_id) with
    | none => .panic
    | some our_position =>
      let st' : NodeState :=
        { st with
          our_neighbors := strideNeighbors st.all_node_ids our_position }
      .ok st' [e.reply .topologyOk]
  | .broadcast message =>
    match observeAndFanout st message with
    | none => .panic
    | some st' => .ok st' [e.reply .broadcastOk]
  | .broadcastOk => .ok st []
  | .read => .ok st [e.reply (.readOk st.messages)]
  | .sync inbound =>
    match syncFold st inbound with
    | none => .panic
    | some st' => .ok st' [e.reply (.syncOk inbound)]
  | .syncOk acknowledged_messages =>
    match RemoteMap.find? st.remote_node_handlers e.src with
    | none => .panic
    | some _ =>
      .ok { st with
            remote_node_handlers :=
              RemoteMap.modify st.remote_node_handlers e.src
                (fun h => h.acknowledge_synced acknowledged_messages) } []
  | _ => .panic  -- `_ => unimplemented!()`

/-- The timer branch of the loop: for every map entry with a non-empty
buffer, send a `Sync` with a copy of the buffer.  The node state is
returned untouched — the Rust block only reads `remote_node_handlers`
(the only mutation there is the `deadline`, which is not engine
state). -/
def flushStep (st : NodeState) : NodeState × List Envelope :=
  (st,
    (st.remote_node_handlers.filter
        (fun p => !p.2.unacknowledged_messages.isEmpty)).map
      (fun p =>
        { src := st.our_id, dest := p.1,
          message := .sync p.2.unacknowledged_messages }))

/-- Well-formedness of the per-neighbor outboxes: each buffer is
duplicate-free and only holds already-observed values. -/
def BuffersWF (st : NodeState) : Prop :=
  ∀ k hdl, RemoteMap.find? st.remote_node_handlers k = some hdl →
    hdl.unacknowledged_messages.Nodup ∧
    ∀ v ∈ hdl.unacknowledged_messages, v ∈ st.messages

/-!
Global model for the convergence property: a cluster is a function from
node id to engine state.  One synchronous flush cycle delivers, for every
ordered pair of nodes `(a, b)`, the `Sync` batch that `a`'s timer branch
would send to `b` (a copy of `a`'s unacknowledged buffer for `b`, sent
only when non-empty), processes it at `b` through the actual dispatch,
and processes the produced `SyncOk` acknowledgment back at its
destination, again through the actual dispatch.  Nodes are keyed by their
id, and in every state reached from `setupG` a node's `our_id` equals its
key, so using the key as the envelope source matches the
`Envelope::new(&our_id, ...)` of the flush branch.
-/

/-- Global state of the simulated cluster: one engine state per node
id. -/
def GState := String → NodeState

/-- Pointwise update of a single node's state. -/
def GState.set (g : GState) (a : String) (st : NodeState) : GState :=
  fun x => if x = a then st else g x

/-- The pending buffer a node keeps for target `b` (empty when the map
has no entry). -/
def bufferOf (st : NodeState) (b : String) : List Nat :=
  match RemoteMap.find? st.remote_node_handlers b with
  | none => []
  | some hdl => hdl.unacknowledged_messages

/-- Deliver one flush edge `a → b` and its acknowledgment (see the
module comment above).  A panic leaves the cluster unchanged; the
invariants below rule panics out in every state the theorems touch. -/
def deliverPair (g : GState) (a b : String) : GState :=
  if (bufferOf (g a) b).isEmpty then g
  else
    match handleEnvelope (g b) ⟨a, b, .sync (bufferOf (g a) b)⟩ with
    | .panic => g
    | .ok stB out =>
      out.foldl
        (fun gg e =>
          match handleEnvelope (gg e.dest) e with
          | .panic => gg
          | .ok stD _ => GState.set gg e.dest stD) (GState.set g b stB)

/-- One synchronous flush cycle over every ordered pair of nodes. -/
def flushCycle (ids : List String) (g : GState) : GState :=
  (ids.flatMap (fun a => ids.map (fun b => (a, b)))).foldl
    (fun g p => deliverPair g p.1 p.2) g

/-- Iterated flush cycles. -/
def flushCycles (ids : List String) : Nat → GState → GState
  | 0, g => g
  | n + 1, g => flushCycles ids n (flushCycle ids g)

/-- Nodes reachable from `a` in at most `n` hops along `nbrs`. -/
def reachList (nbrs : String → List String) : Nat → String → List String
  | 0, a => [a]
  | n + 1, a => a :: (nbrs a).flatMap (reachList nbrs n)

/-- The neighbor list the `Topology` handler assigns to node `x` of the
cluster `ids`. -/
def strideNbrs (ids : List String) (x : String) : List String :=
  match ids.findIdx? (fun id => id == x) with
  | none => []
  | some p => strideNeighbors ids p

/-- A node's engine state after handling `Init{me, ids}` and then a
`Topology` message, both from the fresh startup state (the fallback
branches are unreachable for `me ∈ ids`). -/
def setupNode (ids : List String) (me : String) : NodeState :=
  match handleEnvelope NodeState.initial ⟨"c0", me, .init me ids⟩ with
  | .panic => NodeState.initial
  | .ok st1 _ =>
    match handleEnvelope st1 ⟨"c0", me, .topology []⟩ with
    | .panic => st1
    | .ok st2 _ => st2

/-- The cluster after every node was initialized and topologized. -/
def setupG (ids : List String) : GState := fun me => setupNode ids me

/-- Deliver a list of client broadcasts, each to its target node,
through the actual dispatch. -/
def applyBroadcasts (reqs : List (String × Nat)) (g : GState) : GState :=
  reqs.foldl
    (fun g r =>
      match handleEnvelope (g r.1) ⟨"c0", r.1, .broadcast r.2⟩ with
      | .panic => g
      | .ok st _ => GState.set g r.1 st) g

/-- The cluster invariant threaded through broadcasts and flush cycles:
neighbor lists agree with `nbrs` and stay inside the cluster and off the
node itself, every node has an outbox entry for every node, buffers hold
only observed values, a node's buffer for itself is empty, every observed
value is pending for or already present at each neighbor, and every
observed value is one of the broadcast values `U`. -/
structure Inv (ids : List String) (nbrs : String → List String)
    (U : List Nat) (g : GState) : Prop where
  neighbors_eq : ∀ x ∈ ids, (g x).our_neighbors = nbrs x
  nbrs_sub : ∀ x ∈ ids, ∀ b ∈ nbrs x, b ∈ ids
  no_self_nbr : ∀ x ∈ ids, x ∉ nbrs x
  keys_cover : ∀ x ∈ ids, ∀ k ∈ ids,
    (RemoteMap.find? (g x).remote_node_handlers k).isSome
  wf : ∀ x ∈ ids, ∀ (k : String) (hdl : RemoteNodeHandler),
    RemoteMap.find? (g x).remote_node_handlers k = some hdl →
    ∀ v ∈ hdl.unacknowledged_messages, v ∈ (g x).messages
  selfbuf : ∀ x ∈ ids, bufferOf (g x) x = []
  pend : ∀ x ∈ ids, ∀ v ∈ (g x).messages, ∀ b ∈ nbrs x,
    v ∈ bufferOf (g x) b ∨ v ∈ (g b).messages
  ubound : ∀ x ∈ ids, ∀ v ∈ (g x).messages, v ∈ U

/-- Lookup after a keyed update: the value at `k` is mapped through `f`,
every other key is untouched. -/
theorem RemoteMap.find?_modify (l : RemoteMap) (k k' : String)
    (f : RemoteNodeHandler → RemoteNodeHandler) :
    RemoteMap.find? (RemoteMap.modify l k f) k' =
      if k' = k then (RemoteMap.find? l k').map f else RemoteMap.find? l k' := by
  induction l with
  | nil =>
    simp only [RemoteMap.modify, RemoteMap.find?, Option.map_none']
    split <;> rfl
  | cons p rest ih =>
    obtain ⟨a, w⟩ := p
    by_cases hak : a = k
    · by_cases hk' : k' = a
      · have h1 : a = k' := hk'.symm
        have h2 : k' = k := hk'.trans hak
        simp [RemoteMap.modify, RemoteMap.find?, hak, h1, h2]
      · have h1 : ¬ a = k' := fun h => hk' h.symm
        have h2 : ¬ k' = k := fun h => hk' (h.trans hak.symm)
        have h3 : ¬ k = k' := fun h => h2 h.symm
        simp [RemoteMap.modify, RemoteMap.find?, hak, h1, h2, h3, ih]
    · by_cases hk' : k' = a
      · have h1 : a = k' := hk'.symm
        have h2 : ¬ k' = k := fun h => hak (hk'.symm.trans h)
        simp [RemoteMap.modify, RemoteMap.find?, hak, h1, h2]
      · have h1 : ¬ a = k' := fun h => hk' h.symm
        simp [RemoteMap.modify, RemoteMap.find?, hak, h1, ih]

/-- Lookup after `HashMap::insert`. -/
theorem RemoteMap.find?_insert (l : RemoteMap) (k k' : String)
    (v : RemoteNodeHandler) :
    RemoteMap.find? (RemoteMap.insert l k v) k' =
      if k' = k then some v else RemoteMap.find? l k' := by
  unfold RemoteMap.insert
  by_cases hs : (RemoteMap.find? l k).isSome
  · rw [if_pos hs, RemoteMap.find?_modify]
    by_cases hk : k' = k
    · obtain ⟨h, hh⟩ := Option.isSome_iff_exists.mp hs
      simp [hk, hh]
    · simp [hk]
  · rw [if_neg hs]
    induction l with
    | nil =>
      by_cases hk : k' = k
      · simp [RemoteMap.find?, hk]
      · have h2 : ¬ k = k' := fun h => hk h.symm
        simp [RemoteMap.find?, hk, h2]
    | cons p rest ih =>
      obtain ⟨a, w⟩ := p
      have hak : ¬ a = k := by
        intro h
        simp [RemoteMap.find?, h] at hs
      have hrest : ¬ (RemoteMap.find? rest k).isSome := by
        simp [RemoteMap.find?, hak] at hs
        simp [hs]
      by_cases ha : a = k'
      · have h2 : ¬ k' = k := fun h => hak (ha.trans h)
        simp [RemoteMap.find?, ha, h2]
      · simp only [List.cons_append, RemoteMap.find?, ha, if_false]
        exact ih hrest

/-- Keys present in the map are exactly preserved by `modify`. -/
theorem RemoteMap.isSome_find?_modify (l : RemoteMap) (k k' : String)
    (f : RemoteNodeHandler → RemoteNodeHandler) :
    (RemoteMap.find? (RemoteMap.modify l k f) k').isSome =
      (RemoteMap.find? l k').isSome := by
  rw [RemoteMap.find?_modify]
  by_cases h : k' = k <;> simp [h]

/-- Effect of the fan-out loop on each buffer: the buffer of key `k`
gains one copy of `message` per occurrence of `k` in the neighbor list;
keys outside the list are untouched. -/
theorem fanout_find? (nbrs : List String) (map map' : RemoteMap) (m : Nat)
    (h : fanout map nbrs m = some map') (k : String) :
    RemoteMap.find? map' k =
      (RemoteMap.find? map k).map
        (fun hdl =>
          ⟨hdl.unacknowledged_messages ++ List.replicate (nbrs.count k) m⟩) := by
  induction nbrs generalizing map with
  | nil =>
    simp only [fanout] at h
    cases h
    simp only [List.count_nil, List.replicate_zero, List.append_nil]
    cases hf : RemoteMap.find? map' k with
    | none => rfl
    | some hdl => cases hdl; rfl
  | cons n rest ih =>
    simp only [fanout] at h
    cases hn : RemoteMap.find? map n with
    | none => rw [hn] at h; cases h
    | some h0 =>
      rw [hn] at h
      have := ih _ h
      rw [this, RemoteMap.find?_modify]
      by_cases hk : k = n
      · subst hk
        have hc : (k :: rest).count k = rest.count k + 1 := by
          simp [List.count_cons]
        rw [hc, if_pos rfl, hn]
        simp [RemoteNodeHandler.send_message, List.append_assoc,
          List.replicate_succ]
      · have hc : (n :: rest).count k = rest.count k := by
          simp [List.count_cons, hk]
        rw [hc, if_neg hk]

/-- The fan-out loop cannot panic when every neighbor has a map entry. -/
theorem fanout_isSome (nbrs : List String) (map : RemoteMap) (m : Nat)
    (hcov : ∀ n ∈ nbrs, (RemoteMap.find? map n).isSome) :
    (fanout map nbrs m).isSome := by
  induction nbrs generalizing map with
  | nil => simp [fanout]
  | cons n rest ih =>
    have hn := hcov n (by simp)
    obtain ⟨h0, hh⟩ := Option.isSome_iff_exists.mp hn
    simp only [fanout, hh]
    apply ih
    intro x hx
    rw [RemoteMap.isSome_find?_modify]
    exact hcov x (by simp [hx])

/-- Summary of the state change performed by observing a batch of gossip
values (the body of the `Broadcast` arm, and the loop of the `Sync` arm):
identity fields untouched, observed set grown by exactly the batch,
buffers extended only with newly observed values, and every newly
observed value enqueued to every neighbor's buffer. -/
structure SyncEffect (st st' : NodeState) (batch : List Nat) : Prop where
  neighbors_eq : st'.our_neighbors = st.our_neighbors
  node_ids_eq : st'.all_node_ids = st.all_node_ids
  id_eq : st'.our_id = st.our_id
  mem_mono : ∀ v ∈ st.messages, v ∈ st'.messages
  batch_mem : ∀ v ∈ batch, v ∈ st'.messages
  mem_bound : ∀ v ∈ st'.messages, v ∈ st.messages ∨ v ∈ batch
  keys_eq : ∀ k, (RemoteMap.find? st'.remote_node_handlers k).isSome =
      (RemoteMap.find? st.remote_node_handlers k).isSome
  buffer_grow : ∀ k hdl',
      RemoteMap.find? st'.remote_node_handlers k = some hdl' →
      ∃ hdl extra, RemoteMap.find? st.remote_node_handlers k = some hdl ∧
        hdl'.unacknowledged_messages = hdl.unacknowledged_messages ++ extra ∧
        ∀ v ∈ extra, v ∈ st'.messages ∧ v ∉ st.messages
  new_fanout : ∀ v ∈ st'.messages, v ∉ st.messages →
      ∀ b ∈ st.our_neighbors, ∀ hdl',
        RemoteMap.find? st'.remote_node_handlers b = some hdl' →
        v ∈ hdl'.unacknowledged_messages
  non_neighbor_frame : ∀ k, k ∉ st.our_neighbors →
      RemoteMap.find? st'.remote_node_handlers k
        = RemoteMap.find? st.remote_node_handlers k
  nodup_mono : st.messages.Nodup → st'.messages.Nodup

theorem SyncEffect.nil_batch (st : NodeState) : SyncEffect st st [] where
  neighbors_eq := rfl
  node_ids_eq := rfl
  id_eq := rfl
  mem_mono := fun _ hv => hv
  batch_mem := fun _ hv => absurd hv (List.not_mem_nil _)
  mem_bound := fun _ hv => Or.inl hv
  keys_eq := fun _ => rfl
  buffer_grow := fun k hdl' h =>
    ⟨hdl', [], h, (List.append_nil _).symm, fun _ hv => absurd hv (List.not_mem_nil _)⟩
  new_fanout := fun _ hv hnot _ _ _ _ => absurd hv hnot
  non_neighbor_frame := fun _ _ => rfl
  nodup_mono := fun h => h

theorem SyncEffect.trans {st₁ st₂ st₃ : NodeState} {b₁ b₂ : List Nat}
    (e₁ : SyncEffect st₁ st₂ b₁) (e₂ : SyncEffect st₂ st₃ b₂) :
    SyncEffect st₁ st₃ (b₁ ++ b₂) where
  neighbors_eq := e₂.neighbors_eq.trans e₁.neighbors_eq
  node_ids_eq := e₂.node_ids_eq.trans e₁.node_ids_eq
  id_eq := e₂.id_eq.trans e₁.id_eq
  mem_mono := fun v hv => e₂.mem_mono v (e₁.mem_mono v hv)
  batch_mem := fun v hv => by
    rcases List.mem_append.mp hv with h | h
    · exact e₂.mem_mono v (e₁.batch_mem v h)
    · exact e₂.batch_mem v h
  mem_bound := fun v hv => by
    rcases e₂.mem_bound v hv with h | h
    · rcases e₁.mem_bound v h with h' | h'
      · exact Or.inl h'
      · exact Or.inr (List.mem_append.mpr (Or.inl h'))
    · exact Or.inr (List.mem_append.mpr (Or.inr h))
  keys_eq := fun k => (e₂.keys_eq k).trans (e₁.keys_eq k)
  buffer_grow := fun k hdl₃ h3 => by
    obtain ⟨hdl₂, x₂, hf₂, heq₂, hx₂⟩ := e₂.buffer_grow k hdl₃ h3
    obtain ⟨hdl₁, x₁, hf₁, heq₁, hx₁⟩ := e₁.buffer_grow k hdl₂ hf₂
    refine ⟨hdl₁, x₁ ++ x₂, hf₁, ?_, ?_⟩
    · rw [heq₂, heq₁, List.append_assoc]
    · intro v hv
      rcases List.mem_append.mp hv with h | h
      · obtain ⟨h1, h2⟩ := hx₁ v h
        exact ⟨e₂.mem_mono v h1, h2⟩
      · obtain ⟨h1, h2⟩ := hx₂ v h
        exact ⟨h1, fun hmem => h2 (e₁.mem_mono v hmem)⟩
  new_fanout := fun v hv hnot b hb hdl₃ h3 => by
    by_cases hv2 : v ∈ st₂.messages
    · obtain ⟨hdl₂, x₂, hf₂, heq₂, hx₂⟩ := e₂.buffer_grow b hdl₃ h3
      have := e₁.new_fanout v hv2 hnot b hb hdl₂ hf₂
      rw [heq₂]
      exact List.mem_append.mpr (Or.inl this)
    · exact e₂.new_fanout v hv hv2 b (e₁.neighbors_eq ▸ hb) hdl₃ h3
  non_neighbor_frame := fun k hk => by
    rw [e₂.non_neighbor_frame k (e₁.neighbors_eq ▸ hk),
      e₁.non_neighbor_frame k hk]
  nodup_mono := fun h => e₂.nodup_mono (e₁.nodup_mono h)

/-- `observeAndFanout` implements a one-element batch. -/
theorem observeAndFanout_effect {st st' : NodeState} {m : Nat}
    (h : observeAndFanout st m = some st') : SyncEffect st st' [m] := by
  unfold observeAndFanout at h
  by_cases hm : m ∈ st.messages
  · rw [if_pos hm] at h
    cases h
    exact
      { neighbors_eq := rfl, node_ids_eq := rfl, id_eq := rfl
        mem_mono := fun _ hv => hv
        batch_mem := fun v hv => by
          rcases List.mem_singleton.mp hv with rfl
          exact hm
        mem_bound := fun _ hv => Or.inl hv
        keys_eq := fun _ => rfl
        buffer_grow := fun k hdl' h =>
          ⟨hdl', [], h, (List.append_nil _).symm,
            fun _ hv => absurd hv (List.not_mem_nil _)⟩
        new_fanout := fun _ hv hnot _ _ _ _ => absurd hv hnot
        non_neighbor_frame := fun _ _ => rfl
        nodup_mono := fun h => h }
  · rw [if_neg hm] at h
    cases hf : fanout st.remote_node_handlers st.our_neighbors m with
    | none => rw [hf] at h; cases h
    | some map' =>
      rw [hf] at h
      cases h
      have hfind := fanout_find? st.our_neighbors st.remote_node_handlers map' m hf
      refine
        { neighbors_eq := rfl
          node_ids_eq := rfl
          id_eq := rfl
          mem_mono := fun v hv => List.mem_append.mpr (Or.inl hv)
          batch_mem := fun v hv => by
            rcases List.mem_singleton.mp hv with rfl
            exact List.mem_append.mpr (Or.inr (List.mem_singleton.mpr rfl))
          mem_bound := fun v hv => List.mem_append.mp hv
          keys_eq := fun k => by rw [hfind k]; cases RemoteMap.find? st.remote_node_handlers k <;> rfl
          buffer_grow := fun k hdl' hk => ?_
          new_fanout := fun v hv hnot b hb hdl' hk => ?_
          non_neighbor_frame := fun k hk => by
            rw [hfind k]
            have hc : st.our_neighbors.count k = 0 :=
              List.count_eq_zero.mpr hk
            simp only [hc, List.replicate_zero, List.append_nil]
            cases RemoteMap.find? st.remote_node_handlers k with
            | none => rfl
            | some hdl => cases hdl; rfl
          nodup_mono := fun hnd => by
            simp [List.nodup_append, hnd, hm] }
      · rw [hfind k] at hk
        cases hfo : RemoteMap.find? st.remote_node_handlers k with
        | none => rw [hfo] at hk; cases hk
        | some hdl =>
          rw [hfo] at hk
          refine ⟨hdl, List.replicate (st.our_neighbors.count k) m, rfl, ?_, ?_⟩
          · cases hk; rfl
          · intro v hv
            rcases (List.eq_of_mem_replicate hv) with rfl
            exact ⟨List.mem_append.mpr (Or.inr (List.mem_singleton.mpr rfl)), hm⟩
      · have hvm : v = m := by
          rcases List.mem_append.mp hv with h' | h'
          · exact absurd h' hnot
          · exact List.mem_singleton.mp h'
        subst hvm
        rw [hfind b] at hk
        cases hfo : RemoteMap.find? st.remote_node_handlers b with
        | none => rw [hfo] at hk; cases hk
        | some hdl =>
          rw [hfo] at hk
          cases hk
          apply List.mem_append.mpr
          refine Or.inr (List.mem_replicate.mpr ⟨?_, rfl⟩)
          have := List.count_pos_iff.mpr hb
          omega

/-- The observe loop of `Sync` realizes the whole batch. -/
theorem syncFold_effect {batch : List Nat} {st st' : NodeState}
    (h : syncFold st batch = some st') : SyncEffect st st' batch := by
  induction batch generalizing st with
  | nil =>
    unfold syncFold at h
    cases h
    exact SyncEffect.nil_batch st'
  | cons m rest ih =>
    unfold syncFold at h
    cases ho : observeAndFanout st m with
    | none => rw [ho] at h; cases h
    | some st₁ =>
      rw [ho] at h
      exact (observeAndFanout_effect ho).trans (ih h)

/-- `observeAndFanout` cannot panic when every neighbor has a map
entry. -/
theorem observeAndFanout_isSome (st : NodeState) (m : Nat)
    (hcov : ∀ n ∈ st.our_neighbors,
      (RemoteMap.find? st.remote_node_handlers n).isSome) :
    (observeAndFanout st m).isSome := by
  unfold observeAndFanout
  by_cases hm : m ∈ st.messages
  · simp [hm]
  · rw [if_neg hm]
    have := fanout_isSome st.our_neighbors st.remote_node_handlers m hcov
    obtain ⟨map', hmap⟩ := Option.isSome_iff_exists.mp this
    rw [hmap]
    rfl

/-- The `Sync` loop cannot panic when every neighbor has a map entry. -/
theorem syncFold_isSome (batch : List Nat) (st : NodeState)
    (hcov : ∀ n ∈ st.our_neighbors,
      (RemoteMap.find? st.remote_node_handlers n).isSome) :
    (syncFold st batch).isSome := by
  induction batch generalizing st with
  | nil => simp [syncFold]
  | cons m rest ih =>
    unfold syncFold
    have h1 := observeAndFanout_isSome st m hcov
    obtain ⟨st₁, hst₁⟩ := Option.isSome_iff_exists.mp h1
    rw [hst₁]
    apply ih
    intro n hn
    have e := observeAndFanout_effect hst₁
    rw [e.keys_eq n]
    exact hcov n (e.neighbors_eq ▸ hn)

/-- A batch already wholly observed leaves the state untouched. -/
theorem syncFold_of_subset {batch : List Nat} (st : NodeState)
    (hsub : ∀ v ∈ batch, v ∈ st.messages) : syncFold st batch = some st := by
  induction batch with
  | nil => rfl
  | cons m rest ih =>
    unfold syncFold
    have hm : m ∈ st.messages := hsub m (by simp)
    rw [show observeAndFanout st m = some st by simp [observeAndFanout, hm]]
    exact ih (fun v hv => hsub v (by simp [hv]))

/-- Element `i` of the countdown walk started at `n` is element
`n + i * s` of the source. -/
theorem stepByAux_getElem? (s : Nat) (hs : 1 ≤ s) (l : List String) :
    ∀ n i : Nat, (stepByAux s l n)[i]? = l[n + i * s]? := by
  induction l with
  | nil => intro n i; cases n <;> simp [stepByAux]
  | cons x xs ih =>
    intro n i
    cases n with
    | zero =>
      cases i with
      | zero => simp [stepByAux]
      | succ i =>
        rw [show stepByAux s (x :: xs) 0 = x :: stepByAux s xs (s - 1)
          from rfl]
        rw [List.getElem?_cons_succ, ih (s - 1) i]
        have harith : 0 + (i + 1) * s = (s - 1 + i * s) + 1 := by
          cases s with
          | zero => omega
          | succ s2 => ring_nf; omega
        rw [harith, List.getElem?_cons_succ]
    | succ n =>
      rw [show stepByAux s (x :: xs) (n + 1) = stepByAux s xs n from rfl,
        ih n i]
      have harith : (n + 1) + i * s = (n + i * s) + 1 := by omega
      rw [harith, List.getElem?_cons_succ]

/-- Element `i` of `step_by(s)` is element `i * s` of the source. -/
theorem stepBy_getElem? (s : Nat) (hs : 1 ≤ s) (l : List String) :
    ∀ i : Nat, (stepBy s l)[i]? = l[i * s]? := by
  intro i
  rw [stepBy, stepByAux_getElem? s hs l 0 i, Nat.zero_add]

/-- Membership in `step_by(s)` is membership at a multiple-of-`s`
position. -/
theorem mem_stepBy_iff (s : Nat) (hs : 1 ≤ s) (l : List String) (x : String) :
    x ∈ stepBy s l ↔ ∃ i : Nat, l[i * s]? = some x := by
  rw [List.mem_iff_getElem?]
  constructor
  · rintro ⟨i, hi⟩
    exact ⟨i, by rw [← stepBy_getElem? s hs l i]; exact hi⟩
  · rintro ⟨i, hi⟩
    exact ⟨i, by rw [stepBy_getElem? s hs l i]; exact hi⟩

/-- The stride partition selects exactly the entries whose position is
congruent to `(p + 1) % STRIDE`. -/
theorem mem_strideNeighbors_iff (all : List String) (p : Nat) (x : String) :
    x ∈ strideNeighbors all p ↔
      ∃ j : Nat, j % STRIDE = (p + 1) % STRIDE ∧ all[j]? = some x := by
  unfold strideNeighbors
  rw [mem_stepBy_iff STRIDE (by simp [STRIDE]) _ x]
  constructor
  · rintro ⟨i, hi⟩
    rw [List.getElem?_drop] at hi
    exact ⟨(p + 1) % STRIDE + i * STRIDE, by simp only [STRIDE]; omega, hi⟩
  · rintro ⟨j, hj, hx⟩
    refine ⟨(j - (p + 1) % STRIDE) / STRIDE, ?_⟩
    rw [List.getElem?_drop]
    have harith : (p + 1) % STRIDE + (j - (p + 1) % STRIDE) / STRIDE * STRIDE = j := by
      simp only [STRIDE] at *
      omega
    rw [harith]
    exact hx

/-- A node is never selected as its own stride neighbor (positions keep a
distinct residue mod `STRIDE`). -/
theorem self_not_mem_strideNeighbors (all : List String) (p : Nat) (x : String)
    (hnd : all.Nodup) (hp : all[p]? = some x) :
    x ∉ strideNeighbors all p := by
  intro hmem
  obtain ⟨j, hj, hx⟩ := (mem_strideNeighbors_iff all p x).mp hmem
  have hplen : p < all.length := by
    by_contra hge
    rw [List.getElem?_eq_none (by omega)] at hp
    cases hp
  have : p = j := List.getElem?_inj hplen hnd (hp.trans hx.symm)
  subst this
  simp only [STRIDE] at hj
  omega

/-- Every stride neighbor is drawn from the full node list. -/
theorem strideNeighbors_subset (all : List String) (p : Nat) :
    ∀ x ∈ strideNeighbors all p, x ∈ all := by
  intro x hx
  obtain ⟨j, _, hj⟩ := (mem_strideNeighbors_iff all p x).mp hx
  exact List.getElem?_mem hj

/-- Keys outside `node_ids` are untouched by the `Init` fold. -/
theorem initHandlers_find?_not_mem (node_ids : List String) (map : RemoteMap)
    (k : String) (h : k ∉ node_ids) :
    RemoteMap.find? (initHandlers node_ids map) k = RemoteMap.find? map k := by
  induction node_ids generalizing map with
  | nil => rfl
  | cons i rest ih =>
    have hki : ¬ k = i := fun he => h (by simp [he])
    rw [show initHandlers (i :: rest) map
        = initHandlers rest (RemoteMap.insert map i RemoteNodeHandler.new)
      from rfl]
    rw [ih _ (fun hr => h (by simp [hr])), RemoteMap.find?_insert,
      if_neg hki]

/-- Every listed node id ends up with a fresh empty handler. -/
theorem initHandlers_find?_mem (node_ids : List String) (map : RemoteMap)
    (k : String) (h : k ∈ node_ids) :
    RemoteMap.find? (initHandlers node_ids map) k =
      some RemoteNodeHandler.new := by
  induction node_ids generalizing map with
  | nil => cases h
  | cons i rest ih =>
    rw [show initHandlers (i :: rest) map
        = initHandlers rest (RemoteMap.insert map i RemoteNodeHandler.new)
      from rfl]
    by_cases hr : k ∈ rest
    · exact ih _ hr
    · have hki : k = i := by
        rcases List.mem_cons.mp h with h' | h'
        · exact h'
        · exact absurd h' hr
      rw [initHandlers_find?_not_mem rest _ k hr, RemoteMap.find?_insert,
        if_pos hki]

/-- Membership in an acknowledged buffer: exactly the values not named by
the acknowledgment survive. -/
theorem mem_acknowledge_synced (h : RemoteNodeHandler) (acked : List Nat)
    (v : Nat) :
    v ∈ (h.acknowledge_synced acked).unacknowledged_messages ↔
      v ∈ h.unacknowledged_messages ∧ v ∉ acked := by
  simp [RemoteNodeHandler.acknowledge_synced, List.mem_filter]

/-- Acknowledging values none of which are buffered is a no-op. -/
theorem acknowledge_synced_of_disjoint (h : RemoteNodeHandler)
    (acked : List Nat)
    (hdisj : ∀ v ∈ h.unacknowledged_messages, v ∉ acked) :
    h.acknowledge_synced acked = h := by
  unfold RemoteNodeHandler.acknowledge_synced
  have : h.unacknowledged_messages.filter (fun m => !(acked.contains m))
      = h.unacknowledged_messages := by
    apply List.filter_eq_self.mpr
    intro a ha
    simpa using hdisj a ha
  rw [this]


theorem length_le_of_nodup_subset {l1 l2 : List Nat} (h1 : l1.Nodup)
    (hsub : l1 ⊆ l2) : l1.length ≤ l2.length := by
  have h3 : l1.toFinset.card = l1.length := List.toFinset_card_of_nodup h1
  have h4 : l1.toFinset ⊆ l2.toFinset := by
    intro a ha
    simp only [List.mem_toFinset] at *
    exact hsub ha
  have h5 := Finset.card_le_card h4
  have h6 := l2.toFinset_card_le
  omega

/-- One observe step keeps the outboxes well-formed (the guard enqueues a
value only on first observation, and a duplicate-free neighbor list
enqueues it at most once per buffer). -/
theorem observeAndFanout_buffersWF {st st' : NodeState} {m : Nat}
    (hnb : st.our_neighbors.Nodup) (h : observeAndFanout st m = some st')
    (hwf : BuffersWF st) : BuffersWF st' := by
  have eff := observeAndFanout_effect h
  intro k hdl' hk
  obtain ⟨hdl, extra, hfind, heq, hextra⟩ := eff.buffer_grow k hdl' hk
  obtain ⟨hnd, hsub⟩ := hwf k hdl hfind
  constructor
  · rw [heq]
    have hextnd : extra.Nodup := by
      -- `extra` is what the fan-out appended; recompute it explicitly
      unfold observeAndFanout at h
      by_cases hm : m ∈ st.messages
      · rw [if_pos hm] at h
        cases h
        rw [hk] at hfind
        cases hfind
        have : hdl'.unacknowledged_messages.length
            = (hdl'.unacknowledged_messages ++ extra).length := by rw [← heq]
        rw [List.length_append] at this
        have : extra = [] := List.eq_nil_of_length_eq_zero (by omega)
        simp [this]
      · rw [if_neg hm] at h
        cases hfo : fanout st.remote_node_handlers st.our_neighbors m with
        | none => rw [hfo] at h; cases h
        | some map' =>
          rw [hfo] at h
          cases h
          have := fanout_find? st.our_neighbors st.remote_node_handlers map' m
            hfo k
          rw [hk, hfind] at this
          simp only [Option.map_some'] at this
          cases this
          -- now `hdl'.unacked = hdl.unacked ++ replicate (count) m`
          have hcount : st.our_neighbors.count k ≤ 1 :=
            List.nodup_iff_count_le_one.mp hnb k
          have hrep : extra = List.replicate (st.our_neighbors.count k) m := by
            have := heq
            simp only [List.append_cancel_left_eq] at this ⊢
            exact this.symm
          rw [hrep]
          interval_cases hc : st.our_neighbors.count k
          · exact List.nodup_nil
          · simp
    refine hnd.append hextnd ?_
    intro a ha hb
    exact (hextra a hb).2 (hsub a ha)
  · intro v hv
    rw [heq] at hv
    rcases List.mem_append.mp hv with h' | h'
    · exact eff.mem_mono v (hsub v h')
    · exact (hextra v h').1


/-- The `Sync` loop keeps the outboxes well-formed. -/
theorem syncFold_buffersWF {batch : List Nat} {st st' : NodeState}
    (hnb : st.our_neighbors.Nodup) (h : syncFold st batch = some st')
    (hwf : BuffersWF st) : BuffersWF st' := by
  induction batch generalizing st with
  | nil =>
    unfold syncFold at h
    cases h
    exact hwf
  | cons m rest ih =>
    unfold syncFold at h
    cases ho : observeAndFanout st m with
    | none => rw [ho] at h; cases h
    | some st₁ =>
      rw [ho] at h
      have eff := observeAndFanout_effect ho
      exact ih (eff.neighbors_eq ▸ hnb) h (observeAndFanout_buffersWF hnb ho hwf)

/-- Every non-panicking dispatch keeps the outboxes well-formed. -/
theorem handleEnvelope_buffersWF {st st' : NodeState} {e : Envelope}
    {out : List Envelope} (h : handleEnvelope st e = .ok st' out)
    (hnb : st.our_neighbors.Nodup) (hwf : BuffersWF st) : BuffersWF st' := by
  cases hm : e.message with
  | init node_id node_ids =>
    simp only [handleEnvelope, hm] at h
    cases h
    intro k hdl hk
    by_cases hmem : k ∈ node_ids
    · rw [show RemoteMap.find? (List.foldl
          (fun map id => RemoteMap.insert map id RemoteNodeHandler.new)
          st.remote_node_handlers node_ids) k
          = RemoteMap.find? (initHandlers node_ids st.remote_node_handlers) k
        from rfl, initHandlers_find?_mem _ _ _ hmem] at hk
      cases hk
      exact ⟨List.nodup_nil, fun v hv => absurd hv (List.not_mem_nil v)⟩
    · rw [show RemoteMap.find? (List.foldl
          (fun map id => RemoteMap.insert map id RemoteNodeHandler.new)
          st.remote_node_handlers node_ids) k
          = RemoteMap.find? (initHandlers node_ids st.remote_node_handlers) k
        from rfl, initHandlers_find?_not_mem _ _ _ hmem] at hk
      exact hwf k hdl hk
  | topology t =>
    simp only [handleEnvelope, hm] at h
    cases hidx : st.all_node_ids.findIdx? (fun node_id => node_id == st.our_id) with
    | none => rw [hidx] at h; cases h
    | some p =>
      rw [hidx] at h
      cases h
      exact hwf
  | broadcast m =>
    simp only [handleEnvelope, hm] at h
    cases ho : observeAndFanout st m with
    | none => rw [ho] at h; cases h
    | some st₁ =>
      rw [ho] at h
      cases h
      exact observeAndFanout_buffersWF hnb ho hwf
  | broadcastOk =>
    simp only [handleEnvelope, hm] at h
    cases h
    exact hwf
  | read =>
    simp only [handleEnvelope, hm] at h
    cases h
    exact hwf
  | sync batch =>
    simp only [handleEnvelope, hm] at h
    cases hs : syncFold st batch with
    | none => rw [hs] at h; cases h
    | some st₁ =>
      rw [hs] at h
      cases h
      exact syncFold_buffersWF hnb hs hwf
  | syncOk acked =>
    simp only [handleEnvelope, hm] at h
    cases hf : RemoteMap.find? st.remote_node_handlers e.src with
    | none => rw [hf] at h; cases h
    | some hdl0 =>
      rw [hf] at h
      cases h
      intro k hdl hk
      rw [RemoteMap.find?_modify] at hk
      by_cases hks : k = e.src
      · rw [if_pos hks] at hk
        cases hfk : RemoteMap.find? st.remote_node_handlers k with
        | none => rw [hfk] at hk; cases hk
        | some hdl1 =>
          rw [hfk] at hk
          simp only [Option.map_some'] at hk
          cases hk
          obtain ⟨hnd, hsub⟩ := hwf k hdl1 hfk
          constructor
          · exact hnd.filter _
          · intro v hv
            rw [mem_acknowledge_synced] at hv
            exact hsub v hv.1
      · rw [if_neg hks] at hk
        exact hwf k hdl hk
  | initOk =>
    simp only [handleEnvelope, hm] at h
    cases h
  | topologyOk =>
    simp only [handleEnvelope, hm] at h
    cases h
  | readOk msgs =>
    simp only [handleEnvelope, hm] at h
    cases h


/-- With no neighbors, the `Sync` loop never touches the outbox map and
keeps the neighbor list empty. -/
theorem syncFold_nil_neighbors {batch : List Nat} {st st' : NodeState}
    (hn : st.our_neighbors = []) (h : syncFold st batch = some st') :
    st'.remote_node_handlers = st.remote_node_handlers
      ∧ st'.our_neighbors = [] := by
  induction batch generalizing st with
  | nil =>
    unfold syncFold at h
    cases h
    exact ⟨rfl, hn⟩
  | cons m rest ih =>
    unfold syncFold at h
    cases ho : observeAndFanout st m with
    | none => rw [ho] at h; cases h
    | some st₁ =>
      rw [ho] at h
      have h₁ : st₁.remote_node_handlers = st.remote_node_handlers
          ∧ st₁.our_neighbors = [] := by
        unfold observeAndFanout at ho
        by_cases hm : m ∈ st.messages
        · rw [if_pos hm] at ho
          cases ho
          exact ⟨rfl, hn⟩
        · rw [if_neg hm, hn] at ho
          simp only [fanout] at ho
          cases ho
          exact ⟨rfl, rfl⟩
      obtain ⟨hmap1, hnb1⟩ := h₁
      obtain ⟨hmap2, hnb2⟩ := ih hnb1 h
      exact ⟨hmap2.trans hmap1, hnb2⟩


/-- Claim C3 counterexample: an `InitOk` envelope arriving at a fresh node
does not produce a typed, survivable error — the dispatch hits
`unimplemented!()` and the process panics. -/
theorem claim_C3_counterexample :
    handleEnvelope NodeState.initial ⟨"c1", "n1", .initOk⟩ = .panic
      ∧ handleEnvelope NodeState.initial ⟨"c1", "n1", .topologyOk⟩ = .panic
      ∧ handleEnvelope NodeState.initial ⟨"n2", "n1", .readOk [7]⟩ = .panic :=
  ⟨rfl, rfl, rfl⟩

/-- Claim C3 (amended): an envelope whose body is `InitOk`, `TopologyOk`
or `ReadOk` falls into the `unimplemented!()` arm, so the dispatch panics
and the process aborts instead of logging and dropping the envelope;
`BroadcastOk` alone is silently discarded with no state change and no
reply. -/
theorem claim_C3_unexpected_message_panics (st : NodeState)
    (src dst : String) (msgs : List Nat) :
    handleEnvelope st ⟨src, dst, .initOk⟩ = .panic
      ∧ handleEnvelope st ⟨src, dst, .topologyOk⟩ = .panic
      ∧ handleEnvelope st ⟨src, dst, .readOk msgs⟩ = .panic
      ∧ handleEnvelope st ⟨src, dst, .broadcastOk⟩ = .ok st [] :=
  ⟨rfl, rfl, rfl, rfl⟩

/-- Claim C8 counterexample: `send_message` (the enqueue into a
neighbor's outbox) is a plain `Vec::push`; enqueuing a value already
pending does not leave the buffer unchanged. -/
theorem claim_C8_counterexample :
    RemoteNodeHandler.send_message ⟨[3]⟩ 3 ≠ (⟨[3]⟩ : RemoteNodeHandler) := by
  decide

/-- Claim C8 (amended): enqueue appends unconditionally (it is not
idempotent as an operation), but the engine calls it only when a value is
first observed, so across every non-panicking dispatch the buffers stay
duplicate-free and hold only observed values, bounding each buffer's
length by the number of distinct observed values. -/
theorem claim_C8_buffer_growth_bounded :
    (∀ (h : RemoteNodeHandler) (m : Nat),
      (h.send_message m).unacknowledged_messages
        = h.unacknowledged_messages ++ [m])
    ∧ (∀ (st st' : NodeState) (e : Envelope) (out : List Envelope),
        handleEnvelope st e = .ok st' out → st.our_neighbors.Nodup →
        BuffersWF st → BuffersWF st')
    ∧ (∀ (st : NodeState) (k : String) (hdl : RemoteNodeHandler),
        BuffersWF st →
        RemoteMap.find? st.remote_node_handlers k = some hdl →
        hdl.unacknowledged_messages.length ≤ st.messages.length) := by
  refine ⟨fun h m => rfl, ?_, ?_⟩
  · intro st st' e out h hnb hwf
    exact handleEnvelope_buffersWF h hnb hwf
  · intro st k hdl hwf hfind
    obtain ⟨hnd, hsub⟩ := hwf k hdl hfind
    exact length_le_of_nodup_subset hnd hsub

/-- Claim C8 witness: the amended theorem applied to a fresh node handling
`Broadcast{5}`. -/
theorem claim_C8_witness :
    BuffersWF { NodeState.initial with messages := [5] } :=
  claim_C8_buffer_growth_bounded.2.1 NodeState.initial
    { NodeState.initial with messages := [5] }
    ⟨"c0", "n0", .broadcast 5⟩ [⟨"n0", "c0", .broadcastOk⟩]
    rfl (by decide) (fun k hdl h => by simp [RemoteMap.find?] at h)


/-- Claim C10: before any `Topology` message the neighbor list is empty
(`Init` never touches it), and a `Broadcast` or `Sync` handled in that
state still inserts its values into the observed set and still replies
`BroadcastOk`/`SyncOk`, but leaves every outbox untouched, so nothing is
gossiped onward. -/
theorem claim_C10_empty_neighbors_no_fanout :
    (∀ (st st' : NodeState) (src dst node_id : String)
       (node_ids : List String) (out : List Envelope),
       handleEnvelope st ⟨src, dst, .init node_id node_ids⟩ = .ok st' out →
       st'.our_neighbors = st.our_neighbors)
    ∧ (∀ (st : NodeState) (src dst : String) (v : Nat),
        st.our_neighbors = [] →
        handleEnvelope st ⟨src, dst, .broadcast v⟩
          = .ok { st with messages :=
              if v ∈ st.messages then st.messages else st.messages ++ [v] }
            [⟨dst, src, .broadcastOk⟩])
    ∧ (∀ (st st' : NodeState) (src dst : String) (batch : List Nat)
        (out : List Envelope),
        st.our_neighbors = [] →
        handleEnvelope st ⟨src, dst, .sync batch⟩ = .ok st' out →
        st'.remote_node_handlers = st.remote_node_handlers
        ∧ (∀ v ∈ batch, v ∈ st'.messages)
        ∧ out = [⟨dst, src, .syncOk batch⟩])
    ∧ (∀ (st : NodeState) (src dst : String) (batch : List Nat),
        st.our_neighbors = [] →
        handleEnvelope st ⟨src, dst, .sync batch⟩ ≠ .panic) := by
  refine ⟨?_, ?_, ?_, ?_⟩
  · intro st st' src dst node_id node_ids out h
    simp only [handleEnvelope] at h
    cases h
    rfl
  · intro st src dst v hn
    by_cases hm : v ∈ st.messages
    · simp [handleEnvelope, observeAndFanout, hm, Envelope.reply]
    · simp only [handleEnvelope, observeAndFanout, hm, if_neg, if_false, hn,
        fanout]
      rfl
  · intro st st' src dst batch out hn h
    simp only [handleEnvelope] at h
    cases hs : syncFold st batch with
    | none => rw [hs] at h; cases h
    | some st₁ =>
      rw [hs] at h
      cases h
      obtain ⟨hmap, _⟩ := syncFold_nil_neighbors hn hs
      exact ⟨hmap, (syncFold_effect hs).batch_mem, rfl⟩
  · intro st src dst batch hn
    have : (syncFold st batch).isSome := by
      apply syncFold_isSome
      rw [hn]
      intro n hn'
      cases hn'
    obtain ⟨st₁, hst₁⟩ := Option.isSome_iff_exists.mp this
    simp [handleEnvelope, hst₁]

/-- Claim C10 witness: a fresh (un-initialized, un-topologized) node
handling `Broadcast{7}` and then `Sync{[7,8]}`. -/
theorem claim_C10_witness :
    handleEnvelope NodeState.initial ⟨"c0", "n0", .broadcast 7⟩
      = .ok { NodeState.initial with messages := [7] }
        [⟨"n0", "c0", .broadcastOk⟩] :=
  (claim_C10_empty_neighbors_no_fanout.2.1 NodeState.initial "c0" "n0" 7
    rfl).trans (by decide)


/-- Claim C7: the periodic flush only reads the outboxes (state
unchanged); acknowledgment removes exactly the named values from exactly
the acknowledged sender's buffer (values not present are ignored, not an
error), leaves the observed set and the neighbor list alone, and leaves
every other sender's buffer untouched. -/
theorem claim_C7_ack_removes_exactly_named :
    (∀ st : NodeState, (flushStep st).1 = st)
    ∧ (∀ (h : RemoteNodeHandler) (acked : List Nat) (v : Nat),
        v ∈ (h.acknowledge_synced acked).unacknowledged_messages ↔
          v ∈ h.unacknowledged_messages ∧ v ∉ acked)
    ∧ (∀ (h : RemoteNodeHandler) (acked : List Nat),
        (∀ v ∈ h.unacknowledged_messages, v ∉ acked) →
        h.acknowledge_synced acked = h)
    ∧ (∀ (st st' : NodeState) (src dst : String) (acked : List Nat)
        (out : List Envelope),
        handleEnvelope st ⟨src, dst, .syncOk acked⟩ = .ok st' out →
        out = []
        ∧ st'.messages = st.messages
        ∧ st'.our_neighbors = st.our_neighbors
        ∧ RemoteMap.find? st'.remote_node_handlers src
            = (RemoteMap.find? st.remote_node_handlers src).map
                (fun h => h.acknowledge_synced acked)
        ∧ ∀ k, k ≠ src → RemoteMap.find? st'.remote_node_handlers k
            = RemoteMap.find? st.remote_node_handlers k) := by
  refine ⟨fun st => rfl, mem_acknowledge_synced, acknowledge_synced_of_disjoint, ?_⟩
  intro st st' src dst acked out h
  simp only [handleEnvelope] at h
  cases hf : RemoteMap.find? st.remote_node_handlers src with
  | none => rw [hf] at h; cases h
  | some hdl0 =>
    rw [hf] at h
    cases h
    refine ⟨rfl, rfl, rfl, ?_, ?_⟩
    · rw [RemoteMap.find?_modify, if_pos rfl, hf]
    · intro k hk
      rw [RemoteMap.find?_modify, if_neg hk]

/-- Claim C7 witness: acknowledging `[3, 9]` from `n1` on a node whose
outboxes are `n1 ↦ [3, 5]`, `n2 ↦ [5]` removes only the `3` from `n1`'s
buffer and leaves `n2`'s buffer alone. -/
theorem claim_C7_witness :
    handleEnvelope
        { remote_node_handlers := [("n1", ⟨[3, 5]⟩), ("n2", ⟨[5]⟩)],
          our_neighbors := ["n1", "n2"], messages := [3, 5],
          all_node_ids := ["n0", "n1", "n2"], our_id := "n0" }
        ⟨"n1", "n0", .syncOk [3, 9]⟩
      = .ok
        { remote_node_handlers := [("n1", ⟨[5]⟩), ("n2", ⟨[5]⟩)],
          our_neighbors := ["n1", "n2"], messages := [3, 5],
          all_node_ids := ["n0", "n1", "n2"], our_id := "n0" } []
    ∧ RemoteMap.find?
        ({ remote_node_handlers := [("n1", ⟨[5]⟩), ("n2", ⟨[5]⟩)],
           our_neighbors := ["n1", "n2"], messages := [3, 5],
           all_node_ids := ["n0", "n1", "n2"], our_id := "n0" }
          : NodeState).remote_node_handlers "n2"
      = RemoteMap.find?
        ({ remote_node_handlers := [("n1", ⟨[3, 5]⟩), ("n2", ⟨[5]⟩)],
           our_neighbors := ["n1", "n2"], messages := [3, 5],
           all_node_ids := ["n0", "n1", "n2"], our_id := "n0" }
          : NodeState).remote_node_handlers "n2" :=
  ⟨by decide,
    (claim_C7_ack_removes_exactly_named.2.2.2 _ _ "n1" "n0" [3, 9] []
      (by decide)).2.2.2.2 "n2" (by decide)⟩

/-- Claim C9: handling `SyncOk` survives exactly when the envelope's
source already has an outbox entry, i.e. was listed in the `node_ids` of
a previously handled `Init`; a `SyncOk` arriving at a fresh node, or from
an id outside `node_ids`, hits the `unwrap` and panics. -/
theorem claim_C9_syncOk_requires_known_sender :
    (∀ (st₁ : NodeState) (out : List Envelope) (c me src dst : String)
       (ids : List String) (acked : List Nat),
       handleEnvelope NodeState.initial ⟨c, me, .init me ids⟩ = .ok st₁ out →
       ((handleEnvelope st₁ ⟨src, dst, .syncOk acked⟩ ≠ .panic) ↔ src ∈ ids))
    ∧ (∀ (src dst : String) (acked : List Nat),
        handleEnvelope NodeState.initial ⟨src, dst, .syncOk acked⟩ = .panic) := by
  constructor
  · intro st₁ out c me src dst ids acked h
    simp only [handleEnvelope] at h
    cases h
    constructor
    · intro hnp
      by_contra hmem
      have : RemoteMap.find?
          (initHandlers ids NodeState.initial.remote_node_handlers) src
          = none := by
        rw [initHandlers_find?_not_mem _ _ _ hmem]
        rfl
      simp only [handleEnvelope] at hnp
      rw [show (List.foldl
          (fun map id => RemoteMap.insert map id RemoteNodeHandler.new)
          NodeState.initial.remote_node_handlers ids)
          = initHandlers ids NodeState.initial.remote_node_handlers
        from rfl, this] at hnp
      exact hnp rfl
    · intro hmem
      have : RemoteMap.find?
          (initHandlers ids NodeState.initial.remote_node_handlers) src
          = some RemoteNodeHandler.new :=
        initHandlers_find?_mem _ _ _ hmem
      simp only [handleEnvelope]
      rw [show (List.foldl
          (fun map id => RemoteMap.insert map id RemoteNodeHandler.new)
          NodeState.initial.remote_node_handlers ids)
          = initHandlers ids NodeState.initial.remote_node_handlers
        from rfl, this]
      intro hcontra
      cases hcontra
  · intro src dst acked
    rfl

/-- Claim C9 witness: after `Init{n0, [n0, n1]}`, a `SyncOk` from `n1`
does not panic, while the fresh-node case panics. -/
theorem claim_C9_witness :
    (handleEnvelope
        { remote_node_handlers :=
            [("n0", ⟨[]⟩), ("n1", ⟨[]⟩)],
          our_neighbors := [], messages := [],
          all_node_ids := ["n0", "n1"], our_id := "n0" }
        ⟨"n1", "n0", .syncOk [4]⟩ ≠ .panic) ↔ "n1" ∈ ["n0", "n1"] :=
  claim_C9_syncOk_requires_known_sender.1
    { remote_node_handlers := [("n0", ⟨[]⟩), ("n1", ⟨[]⟩)],
      our_neighbors := [], messages := [],
      all_node_ids := ["n0", "n1"], our_id := "n0" }
    [⟨"n0", "c0", .initOk⟩] "c0" "n0" "n1" "n0" ["n0", "n1"] [4] (by decide)


/-- Claim C5: re-observing is idempotent.  A second `Broadcast` of the
same value, and a second delivery of the same `Sync` batch, leave the
node state (observed set and all outboxes) exactly unchanged while the
reply is still sent — `BroadcastOk`, resp. `SyncOk` echoing the full
input list.  Concretely, `Sync{[3,3,4]}` delivered twice yields an
observed set holding `3` and `4` exactly once each, outboxes enqueued
once, and both replies echoing `[3,3,4]`. -/
theorem claim_C5_redelivery_idempotent :
    (∀ (st st₁ : NodeState) (src dst : String) (v : Nat)
       (out₁ : List Envelope),
       handleEnvelope st ⟨src, dst, .broadcast v⟩ = .ok st₁ out₁ →
       handleEnvelope st₁ ⟨src, dst, .broadcast v⟩
         = .ok st₁ [⟨dst, src, .broadcastOk⟩])
    ∧ (∀ (st st₁ : NodeState) (src dst : String) (batch : List Nat)
        (out₁ : List Envelope),
        handleEnvelope st ⟨src, dst, .sync batch⟩ = .ok st₁ out₁ →
        handleEnvelope st₁ ⟨src, dst, .sync batch⟩
          = .ok st₁ [⟨dst, src, .syncOk batch⟩])
    ∧ (handleEnvelope
        { remote_node_handlers := [("n0", ⟨[]⟩), ("n1", ⟨[]⟩)],
          our_neighbors := ["n1"], messages := [],
          all_node_ids := ["n0", "n1"], our_id := "n0" }
        ⟨"n1", "n0", .sync [3, 3, 4]⟩
      = .ok
        { remote_node_handlers := [("n0", ⟨[]⟩), ("n1", ⟨[3, 4]⟩)],
          our_neighbors := ["n1"], messages := [3, 4],
          all_node_ids := ["n0", "n1"], our_id := "n0" }
        [⟨"n0", "n1", .syncOk [3, 3, 4]⟩])
    ∧ (handleEnvelope
        { remote_node_handlers := [("n0", ⟨[]⟩), ("n1", ⟨[3, 4]⟩)],
          our_neighbors := ["n1"], messages := [3, 4],
          all_node_ids := ["n0", "n1"], our_id := "n0" }
        ⟨"n1", "n0", .sync [3, 3, 4]⟩
      = .ok
        { remote_node_handlers := [("n0", ⟨[]⟩), ("n1", ⟨[3, 4]⟩)],
          our_neighbors := ["n1"], messages := [3, 4],
          all_node_ids := ["n0", "n1"], our_id := "n0" }
        [⟨"n0", "n1", .syncOk [3, 3, 4]⟩])
    ∧ ([3, 4].count 3 = 1 ∧ [3, 4].count 4 = 1) := by
  refine ⟨?_, ?_, by decide, by decide, by decide, by decide⟩
  · intro st st₁ src dst v out₁ h
    simp only [handleEnvelope] at h ⊢
    cases ho : observeAndFanout st v with
    | none => rw [ho] at h; cases h
    | some stA =>
      rw [ho] at h
      cases h
      have hv : v ∈ st₁.messages :=
        (observeAndFanout_effect ho).batch_mem v (by simp)
      rw [show observeAndFanout st₁ v = some st₁
        from by simp [observeAndFanout, hv]]
      rfl
  · intro st st₁ src dst batch out₁ h
    simp only [handleEnvelope] at h ⊢
    cases hs : syncFold st batch with
    | none => rw [hs] at h; cases h
    | some stA =>
      rw [hs] at h
      cases h
      have hsub : ∀ v ∈ batch, v ∈ st₁.messages :=
        (syncFold_effect hs).batch_mem
      rw [syncFold_of_subset st₁ hsub]
      rfl

/-- Claim C5 witness: broadcast idempotence applied to a fresh node
observing `5` twice. -/
theorem claim_C5_witness :
    handleEnvelope { NodeState.initial with messages := [5] }
        ⟨"c0", "n0", .broadcast 5⟩
      = .ok { NodeState.initial with messages := [5] }
        [⟨"n0", "c0", .broadcastOk⟩] :=
  claim_C5_redelivery_idempotent.1 NodeState.initial
    { NodeState.initial with messages := [5] } "c0" "n0" 5
    [⟨"n0", "c0", .broadcastOk⟩] (by decide)


/-- With distinct node ids, `position(|id| id == our_id)` finds exactly
the index holding `our_id`. -/
theorem findIdx?_of_nodup (ids : List String) (x : String) (p : Nat)
    (hnd : ids.Nodup) (hp : ids[p]? = some x) :
    ids.findIdx? (fun id => id == x) = some p := by
  obtain ⟨hlt, hval⟩ := List.getElem?_eq_some.mp hp
  apply List.findIdx?_eq_some_iff_getElem.mpr
  refine ⟨hlt, by simp [hval], ?_⟩
  intro j hj
  simp only [beq_iff_eq, Bool.not_eq_true, decide_eq_false_iff_not]
  intro heq
  have hjlt : j < ids.length := lt_trans hj hlt
  have : j = p := hnd.getElem_inj_iff.mp (heq.trans hval.symm)
  omega

/-- Claim C6: the `Topology` handler of a node at position `p` of the
full (duplicate-free) node list selects exactly the nodes at positions
congruent to `(p + 1) % STRIDE`, and never the node itself; with
`STRIDE = 4` and 8 nodes, position 0 selects exactly positions 1 and 5. -/
theorem claim_C6_stride_partition :
    (∀ (st st' : NodeState) (src dst : String)
       (t : List (String × List String)) (out : List Envelope) (p : Nat),
       st.all_node_ids.Nodup →
       st.all_node_ids[p]? = some st.our_id →
       handleEnvelope st ⟨src, dst, .topology t⟩ = .ok st' out →
       (∀ x, x ∈ st'.our_neighbors ↔
          ∃ j, j % STRIDE = (p + 1) % STRIDE ∧ st.all_node_ids[j]? = some x)
       ∧ st.our_id ∉ st'.our_neighbors)
    ∧ strideNeighbors ["n0", "n1", "n2", "n3", "n4", "n5", "n6", "n7"] 0
        = ["n1", "n5"] := by
  constructor
  · intro st st' src dst t out p hnd hp h
    simp only [handleEnvelope] at h
    rw [findIdx?_of_nodup st.all_node_ids st.our_id p hnd hp] at h
    cases h
    exact ⟨fun x => mem_strideNeighbors_iff st.all_node_ids p x,
      self_not_mem_strideNeighbors st.all_node_ids p st.our_id hnd hp⟩
  · rfl

/-- Claim C6 witness: the handler applied to the 8-node scenario, node
`n0` at position 0. -/
theorem claim_C6_witness :
    (∀ x, x ∈ (["n1", "n5"] : List String) ↔
       ∃ j, j % STRIDE = (0 + 1) % STRIDE ∧
         (["n0", "n1", "n2", "n3", "n4", "n5", "n6", "n7"] :
           List String)[j]? = some x)
    ∧ "n0" ∉ (["n1", "n5"] : List String) :=
  claim_C6_stride_partition.1
    { remote_node_handlers :=
        [("n0", ⟨[]⟩), ("n1", ⟨[]⟩), ("n2", ⟨[]⟩), ("n3", ⟨[]⟩),
         ("n4", ⟨[]⟩), ("n5", ⟨[]⟩), ("n6", ⟨[]⟩), ("n7", ⟨[]⟩)],
      our_neighbors := [], messages := [],
      all_node_ids := ["n0", "n1", "n2", "n3", "n4", "n5", "n6", "n7"],
      our_id := "n0" }
    { remote_node_handlers :=
        [("n0", ⟨[]⟩), ("n1", ⟨[]⟩), ("n2", ⟨[]⟩), ("n3", ⟨[]⟩),
         ("n4", ⟨[]⟩), ("n5", ⟨[]⟩), ("n6", ⟨[]⟩), ("n7", ⟨[]⟩)],
      our_neighbors := ["n1", "n5"], messages := [],
      all_node_ids := ["n0", "n1", "n2", "n3", "n4", "n5", "n6", "n7"],
      our_id := "n0" }
    "c0" "n0" [] [⟨"n0", "c0", .topologyOk⟩] 0 (by decide) (by decide)
    (by decide)


/-- Claim C2 counterexample: a `Topology` carrying a mapping for this
node (`n0 ↦ []`) does not set the neighbor set to the mapping's entry —
the handler computes the stride partition `["n1"]` regardless. -/
theorem claim_C2_counterexample :
    handleEnvelope
        { remote_node_handlers := [("n0", ⟨[]⟩), ("n1", ⟨[]⟩)],
          our_neighbors := [], messages := [],
          all_node_ids := ["n0", "n1"], our_id := "n0" }
        ⟨"c0", "n0", .topology [("n0", [])]⟩
      = .ok
        { remote_node_handlers := [("n0", ⟨[]⟩), ("n1", ⟨[]⟩)],
          our_neighbors := ["n1"], messages := [],
          all_node_ids := ["n0", "n1"], our_id := "n0" }
        [⟨"n0", "c0", .topologyOk⟩]
    ∧ (["n1"] : List String) ≠ [] := by
  exact ⟨by decide, by decide⟩

/-- Claim C2 (amended): the `Topology` handler discards the peer-supplied
adjacency mapping entirely (`Topology { .. }`): any two mappings produce
the same result, and the neighbor set always becomes the stride partition
computed from the recorded node list. -/
theorem claim_C2_topology_ignores_mapping (st : NodeState) (src dst : String)
    (t₁ t₂ : List (String × List String)) :
    (handleEnvelope st ⟨src, dst, .topology t₁⟩
      = handleEnvelope st ⟨src, dst, .topology t₂⟩)
    ∧ (∀ p : Nat,
        st.all_node_ids.findIdx? (fun id => id == st.our_id) = some p →
        handleEnvelope st ⟨src, dst, .topology t₁⟩
          = .ok { st with our_neighbors := strideNeighbors st.all_node_ids p }
            [⟨dst, src, .topologyOk⟩]) := by
  refine ⟨rfl, ?_⟩
  intro p hp
  simp [handleEnvelope, hp, Envelope.reply]

/-- Claim C2 witness: the amended theorem at the two-node scenario with a
mapping that disagrees with the stride partition. -/
theorem claim_C2_witness :
    handleEnvelope
        { remote_node_handlers := [("n0", ⟨[]⟩), ("n1", ⟨[]⟩)],
          our_neighbors := [], messages := [],
          all_node_ids := ["n0", "n1"], our_id := "n0" }
        ⟨"c0", "n0", .topology [("n0", [])]⟩
      = .ok
        { remote_node_handlers := [("n0", ⟨[]⟩), ("n1", ⟨[]⟩)],
          our_neighbors :=
            strideNeighbors ["n0", "n1"] 0, messages := [],
          all_node_ids := ["n0", "n1"], our_id := "n0" }
        [⟨"n0", "c0", .topologyOk⟩] :=
  (claim_C2_topology_ignores_mapping
    { remote_node_handlers := [("n0", ⟨[]⟩), ("n1", ⟨[]⟩)],
      our_neighbors := [], messages := [],
      all_node_ids := ["n0", "n1"], our_id := "n0" }
    "c0" "n0" [("n0", [])] []).2 0 (by decide)

/-- Claim C1 counterexample: a `Sync` from `n0` introducing the new value
`5`, handled by a node whose neighbor set contains `n0`, enqueues `5`
into the sender `n0`'s own outbox — there is no sender exclusion. -/
theorem claim_C1_counterexample :
    handleEnvelope
        { remote_node_handlers := [("n0", ⟨[]⟩), ("n2", ⟨[]⟩)],
          our_neighbors := ["n0", "n2"], messages := [],
          all_node_ids := ["n0", "n1", "n2"], our_id := "n1" }
        ⟨"n0", "n1", .sync [5]⟩
      = .ok
        { remote_node_handlers := [("n0", ⟨[5]⟩), ("n2", ⟨[5]⟩)],
          our_neighbors := ["n0", "n2"], messages := [5],
          all_node_ids := ["n0", "n1", "n2"], our_id := "n1" }
        [⟨"n1", "n0", .syncOk [5]⟩]
    ∧ (5 : Nat) ∈ ([5] : List Nat) := by
  exact ⟨by decide, by decide⟩

/-- Claim C1 (amended): each value of an inbound `Sync` that is newly
observed is enqueued to the outbox of every current neighbor with no
sender exclusion — in particular to the sender's own outbox whenever the
sender is a neighbor — and the reply echoes the full input list.  (Under
the code's own stride partition a conforming gossip peer is never among
the receiver's neighbors, so the missing exclusion does not produce
bounce-back in conforming runs.) -/
theorem claim_C1_sync_fanout_includes_sender (st st' : NodeState)
    (src dst : String) (batch : List Nat) (out : List Envelope) (v : Nat) :
    handleEnvelope st ⟨src, dst, .sync batch⟩ = .ok st' out →
    v ∈ batch → v ∉ st.messages →
    out = [⟨dst, src, .syncOk batch⟩]
    ∧ (∀ b ∈ st.our_neighbors, ∀ hdl,
        RemoteMap.find? st'.remote_node_handlers b = some hdl →
        v ∈ hdl.unacknowledged_messages) := by
  intro h hv hnew
  simp only [handleEnvelope] at h
  cases hs : syncFold st batch with
  | none => rw [hs] at h; cases h
  | some st₁ =>
    rw [hs] at h
    cases h
    have eff := syncFold_effect hs
    exact ⟨rfl, fun b hb hdl hfind =>
      eff.new_fanout v (eff.batch_mem v hv) hnew b hb hdl hfind⟩

/-- Claim C1 witness: the amended theorem at the counterexample scenario,
reading back the sender's outbox. -/
theorem claim_C1_witness :
    ([⟨"n1", "n0", .syncOk [5]⟩] : List Envelope)
      = [⟨"n1", "n0", .syncOk [5]⟩]
    ∧ (5 : Nat) ∈ ([5] : List Nat) :=
  have happ := claim_C1_sync_fanout_includes_sender
    { remote_node_handlers := [("n0", ⟨[]⟩), ("n2", ⟨[]⟩)],
      our_neighbors := ["n0", "n2"], messages := [],
      all_node_ids := ["n0", "n1", "n2"], our_id := "n1" }
    { remote_node_handlers := [("n0", ⟨[5]⟩), ("n2", ⟨[5]⟩)],
      our_neighbors := ["n0", "n2"], messages := [5],
      all_node_ids := ["n0", "n1", "n2"], our_id := "n1" }
    "n0" "n1" [5] [⟨"n1", "n0", .syncOk [5]⟩] 5 (by decide) (by decide)
    (by decide)
  ⟨happ.1, by
    have := happ.2 "n0" (by decide) ⟨[5]⟩ (by decide)
    exact this⟩


theorem handleSync_eq {st st₁ : NodeState} (src dst : String)
    (batch : List Nat) (hs : syncFold st batch = some st₁) :
    handleEnvelope st ⟨src, dst, .sync batch⟩
      = .ok st₁ [⟨dst, src, .syncOk batch⟩] := by
  simp [handleEnvelope, hs, Envelope.reply]

theorem handleSyncOk_eq {st : NodeState} (src dst : String)
    (acked : List Nat) {hdl : RemoteNodeHandler}
    (hf : RemoteMap.find? st.remote_node_handlers src = some hdl) :
    handleEnvelope st ⟨src, dst, .syncOk acked⟩
      = .ok { st with remote_node_handlers := (RemoteMap.modify
            st.remote_node_handlers src
            (fun h => h.acknowledge_synced acked)) } [] := by
  simp [handleEnvelope, hf]

theorem handleBroadcast_eq {st st₁ : NodeState} (src dst : String)
    (v : Nat) (ho : observeAndFanout st v = some st₁) :
    handleEnvelope st ⟨src, dst, .broadcast v⟩
      = .ok st₁ [⟨dst, src, .broadcastOk⟩] := by
  simp [handleEnvelope, ho, Envelope.reply]

/-- The successor cluster of a non-trivial delivery `a → b`, `a ≠ b`:
`b` absorbs the batch, then `a` retires it from its buffer for `b`. -/
theorem deliverPair_eq_of_ne {g : GState} {a b : String} {st₁ : NodeState}
    (hab : a ≠ b) (hne : ¬(bufferOf (g a) b).isEmpty)
    (hs : syncFold (g b) (bufferOf (g a) b) = some st₁)
    (hsome : (RemoteMap.find? (g a).remote_node_handlers b).isSome) :
    deliverPair g a b
      = GState.set (GState.set g b st₁) a
          { g a with remote_node_handlers := (RemoteMap.modify
              (g a).remote_node_handlers b
              (fun h => h.acknowledge_synced (bufferOf (g a) b))) } := by
  obtain ⟨hdl, hf⟩ := Option.isSome_iff_exists.mp hsome
  unfold deliverPair
  rw [if_neg hne, handleSync_eq a b _ hs]
  simp only [List.foldl_cons, List.foldl_nil]
  have hga : GState.set g b st₁ a = g a := by
    unfold GState.set
    simp [hab]
  rw [hga, handleSyncOk_eq b a _ hf]


theorem mem_bufferOf_iff {st : NodeState} {k : String} {v : Nat} :
    v ∈ bufferOf st k ↔
      ∃ hdl, RemoteMap.find? st.remote_node_handlers k = some hdl
        ∧ v ∈ hdl.unacknowledged_messages := by
  unfold bufferOf
  cases hf : RemoteMap.find? st.remote_node_handlers k with
  | none =>
    simp
  | some hdl =>
    simp

/-- Buffers only grow across an observe batch. -/
theorem SyncEffect.bufferOf_mono {st st' : NodeState} {batch : List Nat}
    (e : SyncEffect st st' batch) (k : String) :
    ∀ v ∈ bufferOf st k, v ∈ bufferOf st' k := by
  intro v hv
  obtain ⟨hdl, hf, hmem⟩ := mem_bufferOf_iff.mp hv
  have : (RemoteMap.find? st'.remote_node_handlers k).isSome := by
    rw [e.keys_eq k, hf]
    rfl
  obtain ⟨hdl', hf'⟩ := Option.isSome_iff_exists.mp this
  obtain ⟨hdl0, extra, hf0, heq, _⟩ := e.buffer_grow k hdl' hf'
  rw [hf] at hf0
  cases hf0
  exact mem_bufferOf_iff.mpr ⟨hdl', hf', by
    rw [heq]
    exact List.mem_append.mpr (Or.inl hmem)⟩

/-- A newly observed value reaches the buffer of every neighbor. -/
theorem SyncEffect.bufferOf_new {st st' : NodeState} {batch : List Nat}
    (e : SyncEffect st st' batch) {v : Nat} (hv : v ∈ st'.messages)
    (hnew : v ∉ st.messages) {b : String} (hb : b ∈ st.our_neighbors)
    (hsome : (RemoteMap.find? st.remote_node_handlers b).isSome) :
    v ∈ bufferOf st' b := by
  have : (RemoteMap.find? st'.remote_node_handlers b).isSome := by
    rw [e.keys_eq b]
    exact hsome
  obtain ⟨hdl', hf'⟩ := Option.isSome_iff_exists.mp this
  exact mem_bufferOf_iff.mpr ⟨hdl', hf', e.new_fanout v hv hnew b hb hdl' hf'⟩

/-- Values of a buffer are observed values of the owner (from the
invariant's `wf` shape). -/
theorem bufferOf_subset_messages {st : NodeState} {k : String}
    (hwf : ∀ (k : String) (hdl : RemoteNodeHandler),
      RemoteMap.find? st.remote_node_handlers k = some hdl →
      ∀ v ∈ hdl.unacknowledged_messages, v ∈ st.messages) :
    ∀ v ∈ bufferOf st k, v ∈ st.messages := by
  intro v hv
  obtain ⟨hdl, hf, hmem⟩ := mem_bufferOf_iff.mp hv
  exact hwf k hdl hf v hmem

theorem GState.set_same (g : GState) (a : String) (st : NodeState) :
    (GState.set g a st) a = st := if_pos rfl

theorem GState.set_other (g : GState) (a : String) (st : NodeState)
    (x : String) (h : x ≠ a) : (GState.set g a st) x = g x := if_neg h
theorem deliverPair_empty {g : GState} {a b : String}
    (h : (bufferOf (g a) b).isEmpty) : deliverPair g a b = g := by
  unfold deliverPair
  rw [if_pos h]

theorem deliverPair_sync_panic {g : GState} {a b : String}
    (hne : ¬(bufferOf (g a) b).isEmpty)
    (hs : syncFold (g b) (bufferOf (g a) b) = none) :
    deliverPair g a b = g := by
  unfold deliverPair
  rw [if_neg hne, show handleEnvelope (g b) ⟨a, b, .sync (bufferOf (g a) b)⟩
      = .panic from by simp [handleEnvelope, hs]]

theorem deliverPair_ack_panic {g : GState} {a b : String} {st₁ : NodeState}
    (hne : ¬(bufferOf (g a) b).isEmpty)
    (hs : syncFold (g b) (bufferOf (g a) b) = some st₁)
    (hf : RemoteMap.find?
      ((GState.set g b st₁) a).remote_node_handlers b = none) :
    deliverPair g a b = GState.set g b st₁ := by
  unfold deliverPair
  rw [if_neg hne, handleSync_eq a b _ hs]
  simp only [List.foldl_cons, List.foldl_nil]
  rw [show handleEnvelope (GState.set g b st₁ a)
      ⟨b, a, .syncOk (bufferOf (g a) b)⟩ = .panic
    from by simp [handleEnvelope, hf]]

theorem deliverPair_some {g : GState} {a b : String} {st₁ : NodeState}
    {hdl : RemoteNodeHandler}
    (hne : ¬(bufferOf (g a) b).isEmpty)
    (hs : syncFold (g b) (bufferOf (g a) b) = some st₁)
    (hf : RemoteMap.find?
      ((GState.set g b st₁) a).remote_node_handlers b = some hdl) :
    deliverPair g a b
      = GState.set (GState.set g b st₁) a
          { (GState.set g b st₁) a with remote_node_handlers := (RemoteMap.modify
              ((GState.set g b st₁) a).remote_node_handlers b
              (fun h => h.acknowledge_synced (bufferOf (g a) b))) } := by
  unfold deliverPair
  rw [if_neg hne, handleSync_eq a b _ hs]
  simp only [List.foldl_cons, List.foldl_nil]
  rw [handleSyncOk_eq b a _ hf]

/-- Pointwise evolution facts of one delivery, with no precondition:
identity fields never change, observed sets only grow, and outbox keys
are stable. -/
theorem deliverPair_fields (g : GState) (a b : String) (x : String) :
    ((deliverPair g a b) x).our_neighbors = (g x).our_neighbors
    ∧ ((deliverPair g a b) x).our_id = (g x).our_id
    ∧ ((deliverPair g a b) x).all_node_ids = (g x).all_node_ids
    ∧ (∀ v ∈ (g x).messages, v ∈ ((deliverPair g a b) x).messages)
    ∧ (∀ k, (RemoteMap.find?
          ((deliverPair g a b) x).remote_node_handlers k).isSome
        = (RemoteMap.find? (g x).remote_node_handlers k).isSome) := by
  by_cases hemp : (bufferOf (g a) b).isEmpty
  · rw [deliverPair_empty hemp]
    exact ⟨rfl, rfl, rfl, fun v hv => hv, fun k => rfl⟩
  · cases hsf : syncFold (g b) (bufferOf (g a) b) with
    | none =>
      rw [deliverPair_sync_panic hemp hsf]
      exact ⟨rfl, rfl, rfl, fun v hv => hv, fun k => rfl⟩
    | some st₁ =>
      have eff := syncFold_effect hsf
      have hsetb : ∀ y, (GState.set g b st₁ y).our_neighbors
            = (g y).our_neighbors
          ∧ (GState.set g b st₁ y).our_id = (g y).our_id
          ∧ (GState.set g b st₁ y).all_node_ids = (g y).all_node_ids
          ∧ (∀ v ∈ (g y).messages, v ∈ (GState.set g b st₁ y).messages)
          ∧ ∀ k, (RemoteMap.find?
                (GState.set g b st₁ y).remote_node_handlers k).isSome
              = (RemoteMap.find? (g y).remote_node_handlers k).isSome := by
        intro y
        by_cases hyb : y = b
        · subst hyb
          rw [GState.set_same]
          exact ⟨eff.neighbors_eq, eff.id_eq, eff.node_ids_eq,
            eff.mem_mono, eff.keys_eq⟩
        · rw [GState.set_other _ _ _ _ hyb]
          exact ⟨rfl, rfl, rfl, fun v hv => hv, fun k => rfl⟩
      cases hff : RemoteMap.find?
          ((GState.set g b st₁) a).remote_node_handlers b with
      | none =>
        rw [deliverPair_ack_panic hemp hsf hff]
        exact hsetb x
      | some hdl0 =>
        rw [deliverPair_some hemp hsf hff]
        by_cases hxa : x = a
        · subst hxa
          rw [GState.set_same]
          obtain ⟨ha1, ha2, ha3, ha4, ha5⟩ := hsetb x
          exact ⟨ha1, ha2, ha3, ha4,
            fun k => (RemoteMap.isSome_find?_modify _ _ _ _).trans (ha5 k)⟩
        · rw [GState.set_other _ _ _ _ hxa]
          exact hsetb x


/-- One delivery preserves the cluster invariant. -/
theorem deliverPair_inv {ids : List String} {nbrs : String → List String}
    {U : List Nat} {g : GState} (inv : Inv ids nbrs U g) {a b : String}
    (ha : a ∈ ids) (hb : b ∈ ids) : Inv ids nbrs U (deliverPair g a b) := by
  by_cases hemp : (bufferOf (g a) b).isEmpty
  · rw [deliverPair_empty hemp]
    exact inv
  · have hab : a ≠ b := by
      intro h
      subst h
      rw [inv.selfbuf a ha] at hemp
      exact hemp rfl
    have hcov : ∀ n ∈ (g b).our_neighbors,
        (RemoteMap.find? (g b).remote_node_handlers n).isSome := by
      intro n hn
      rw [inv.neighbors_eq b hb] at hn
      exact inv.keys_cover b hb n (inv.nbrs_sub b hb n hn)
    obtain ⟨st₁, hsf⟩ := Option.isSome_iff_exists.mp
      (syncFold_isSome (bufferOf (g a) b) (g b) hcov)
    have eff := syncFold_effect hsf
    obtain ⟨hdl, hfgab⟩ := Option.isSome_iff_exists.mp
      (inv.keys_cover a ha b hb)
    have hff : RemoteMap.find?
        ((GState.set g b st₁) a).remote_node_handlers b = some hdl := by
      rw [GState.set_other _ _ _ _ hab]
      exact hfgab
    rw [deliverPair_some hemp hsf hff, GState.set_other _ _ _ _ hab]
    -- abbreviations for the three node states of the successor cluster
    set stA : NodeState :=
      { g a with remote_node_handlers := (RemoteMap.modify
          (g a).remote_node_handlers b
          (fun h => h.acknowledge_synced (bufferOf (g a) b))) } with hstA
    set gg : GState := GState.set (GState.set g b st₁) a stA with hgg
    have hgA : gg a = stA := GState.set_same _ _ _
    have hgB : gg b = st₁ := by
      rw [hgg, GState.set_other _ _ _ _ (Ne.symm hab), GState.set_same]
    have hgO : ∀ y, y ≠ a → y ≠ b → gg y = g y := by
      intro y hya hyb
      rw [hgg, GState.set_other _ _ _ _ hya, GState.set_other _ _ _ _ hyb]
    have hbatch : bufferOf (g a) b = hdl.unacknowledged_messages := by
      unfold bufferOf
      rw [hfgab]
    have hbatch_msgs : ∀ v ∈ bufferOf (g a) b, v ∈ (g a).messages :=
      bufferOf_subset_messages (inv.wf a ha)
    -- `a`'s buffer for `b` is emptied: the acknowledgment names the batch
    have hbufAb : bufferOf stA b = [] := by
      unfold bufferOf
      rw [hstA]
      show (match RemoteMap.find? (RemoteMap.modify
          (g a).remote_node_handlers b
          (fun h => h.acknowledge_synced (bufferOf (g a) b))) b with
        | none => []
        | some hdl => hdl.unacknowledged_messages) = []
      rw [RemoteMap.find?_modify, if_pos rfl, hfgab]
      simp only [Option.map_some']
      rw [List.eq_nil_iff_forall_not_mem]
      intro v hv
      rw [mem_acknowledge_synced] at hv
      rw [hbatch] at hv
      exact hv.2 hv.1
    have hbufA : ∀ c, c ≠ b → bufferOf stA c = bufferOf (g a) c := by
      intro c hc
      unfold bufferOf
      rw [hstA]
      show (match RemoteMap.find? (RemoteMap.modify
          (g a).remote_node_handlers b
          (fun h => h.acknowledge_synced (bufferOf (g a) b))) c with
        | none => []
        | some hdl => hdl.unacknowledged_messages)
        = (match RemoteMap.find? (g a).remote_node_handlers c with
        | none => []
        | some hdl => hdl.unacknowledged_messages)
      rw [RemoteMap.find?_modify, if_neg hc]
    have hmono : ∀ y, ∀ v ∈ (g y).messages, v ∈ (gg y).messages := by
      intro y v hv
      by_cases hya : y = a
      · subst hya
        rw [hgA]
        exact hv
      · by_cases hyb : y = b
        · subst hyb
          rw [hgB]
          exact eff.mem_mono v hv
        · rw [hgO y hya hyb]
          exact hv
    refine ⟨?_, inv.nbrs_sub, inv.no_self_nbr, ?_, ?_, ?_, ?_, ?_⟩
    · -- neighbors_eq
      intro x hx
      by_cases hxa : x = a
      · subst hxa
        rw [hgA]
        exact inv.neighbors_eq x hx
      · by_cases hxb : x = b
        · subst hxb
          rw [hgB, eff.neighbors_eq]
          exact inv.neighbors_eq x hx
        · rw [hgO x hxa hxb]
          exact inv.neighbors_eq x hx
    · -- keys_cover
      intro x hx k hk
      by_cases hxa : x = a
      · subst hxa
        rw [hgA, hstA]
        show (RemoteMap.find? (RemoteMap.modify
            (g x).remote_node_handlers b
            (fun h => h.acknowledge_synced (bufferOf (g x) b))) k).isSome
          = true
        rw [RemoteMap.isSome_find?_modify]
        exact inv.keys_cover x hx k hk
      · by_cases hxb : x = b
        · subst hxb
          rw [hgB, eff.keys_eq]
          exact inv.keys_cover x hx k hk
        · rw [hgO x hxa hxb]
          exact inv.keys_cover x hx k hk
    · -- wf
      intro x hx k hdl2 hfind v hv
      by_cases hxa : x = a
      · subst hxa
        rw [hgA] at hfind ⊢
        rw [hstA] at hfind
        show v ∈ stA.messages
        rw [hstA]
        show v ∈ (g x).messages
        revert hfind
        show RemoteMap.find? (RemoteMap.modify
            (g x).remote_node_handlers b
            (fun h => h.acknowledge_synced (bufferOf (g x) b))) k
          = some hdl2 → _
        rw [RemoteMap.find?_modify]
        by_cases hkb : k = b
        · subst hkb
          rw [if_pos rfl, hfgab]
          simp only [Option.map_some']
          intro heq
          cases heq
          rw [mem_acknowledge_synced] at hv
          exact inv.wf x hx k hdl hfgab v hv.1
        · rw [if_neg hkb]
          intro hfind
          exact inv.wf x hx k hdl2 hfind v hv
      · by_cases hxb : x = b
        · subst hxb
          rw [hgB] at hfind ⊢
          obtain ⟨hdl0, extra, hf0, heq, hextra⟩ :=
            eff.buffer_grow k hdl2 hfind
          rw [heq] at hv
          rcases List.mem_append.mp hv with h' | h'
          · exact eff.mem_mono v (inv.wf x hx k hdl0 hf0 v h')
          · exact (hextra v h').1
        · rw [hgO x hxa hxb] at hfind ⊢
          exact inv.wf x hx k hdl2 hfind v hv
    · -- selfbuf
      intro x hx
      by_cases hxa : x = a
      · subst hxa
        rw [hgA, hbufA x (Ne.symm (by
          intro h
          exact hab (h ▸ rfl)))]
        exact inv.selfbuf x hx
      · by_cases hxb : x = b
        · subst hxb
          rw [hgB]
          have hnn : x ∉ (g x).our_neighbors := by
            rw [inv.neighbors_eq x hx]
            exact inv.no_self_nbr x hx
          unfold bufferOf
          rw [eff.non_neighbor_frame x hnn]
          exact inv.selfbuf x hx
        · rw [hgO x hxa hxb]
          exact inv.selfbuf x hx
    · -- pend
      intro x hx v hv c hc
      by_cases hxa : x = a
      · subst hxa
        rw [hgA] at hv
        replace hv : v ∈ (g x).messages := hv
        rcases inv.pend x hx v hv c hc with h' | h'
        · by_cases hcb : c = b
          · subst hcb
            right
            rw [hgB]
            exact eff.batch_mem v h'
          · left
            rw [hgA, hbufA c hcb]
            exact h'
        · right
          exact hmono c v h'
      · by_cases hxb : x = b
        · subst hxb
          rw [hgB] at hv
          by_cases hvb : v ∈ (g x).messages
          · rcases inv.pend x hx v hvb c hc with h' | h'
            · left
              rw [hgB]
              exact eff.bufferOf_mono c v h'
            · right
              exact hmono c v h'
          · left
            rw [hgB]
            refine eff.bufferOf_new hv hvb ?_ ?_
            · rw [inv.neighbors_eq x hx]
              exact hc
            · exact inv.keys_cover x hx c
                (inv.nbrs_sub x hx c hc)
        · rw [hgO x hxa hxb] at hv
          rcases inv.pend x hx v hv c hc with h' | h'
          · left
            rw [hgO x hxa hxb]
            exact h'
          · right
            exact hmono c v h'
    · -- ubound
      intro x hx v hv
      by_cases hxa : x = a
      · subst hxa
        rw [hgA] at hv
        exact inv.ubound x hx v hv
      · by_cases hxb : x = b
        · subst hxb
          rw [hgB] at hv
          rcases eff.mem_bound v hv with h' | h'
          · exact inv.ubound x hx v h'
          · exact inv.ubound a ha v (hbatch_msgs v h')
        · rw [hgO x hxa hxb] at hv
          exact inv.ubound x hx v hv


/-- Progress: after delivering edge `a → b`, any value `a` had observed
with `b` among `a`'s neighbors has been observed by `b`. -/
theorem deliverPair_progress {ids : List String} {nbrs : String → List String}
    {U : List Nat} {g : GState} (inv : Inv ids nbrs U g) {a b : String}
    (ha : a ∈ ids) (hb : b ∈ ids) (hnb : b ∈ nbrs a) {v : Nat}
    (hv : v ∈ (g a).messages) : v ∈ ((deliverPair g a b) b).messages := by
  rcases inv.pend a ha v hv b hnb with hbuf | hmem
  · -- the value is pending for `b`: the delivery hands it over
    have hab : a ≠ b := by
      intro h
      subst h
      rw [inv.selfbuf a ha] at hbuf
      cases hbuf
    have hemp : ¬(bufferOf (g a) b).isEmpty := by
      intro h
      rw [List.isEmpty_iff] at h
      rw [h] at hbuf
      cases hbuf
    have hcov : ∀ n ∈ (g b).our_neighbors,
        (RemoteMap.find? (g b).remote_node_handlers n).isSome := by
      intro n hn
      rw [inv.neighbors_eq b hb] at hn
      exact inv.keys_cover b hb n (inv.nbrs_sub b hb n hn)
    obtain ⟨st₁, hsf⟩ := Option.isSome_iff_exists.mp
      (syncFold_isSome (bufferOf (g a) b) (g b) hcov)
    have eff := syncFold_effect hsf
    obtain ⟨hdl, hfgab⟩ := Option.isSome_iff_exists.mp
      (inv.keys_cover a ha b hb)
    have hff : RemoteMap.find?
        ((GState.set g b st₁) a).remote_node_handlers b = some hdl := by
      rw [GState.set_other _ _ _ _ hab]
      exact hfgab
    rw [deliverPair_some hemp hsf hff,
      GState.set_other _ _ _ _ (Ne.symm hab), GState.set_same]
    exact eff.batch_mem v hbuf
  · exact (deliverPair_fields g a b b).2.2.2.1 v hmem


theorem foldl_deliver_inv {ids : List String} {nbrs : String → List String}
    {U : List Nat} (pairs : List (String × String)) :
    ∀ (g : GState), Inv ids nbrs U g →
    (∀ p ∈ pairs, p.1 ∈ ids ∧ p.2 ∈ ids) →
    Inv ids nbrs U
      (pairs.foldl (fun g p => deliverPair g p.1 p.2) g) := by
  induction pairs with
  | nil => intro g inv _; exact inv
  | cons p rest ih =>
    intro g inv hp
    rw [List.foldl_cons]
    exact ih _ (deliverPair_inv inv (hp p (by simp)).1 (hp p (by simp)).2)
      (fun q hq => hp q (by simp [hq]))

theorem foldl_deliver_mem_mono (pairs : List (String × String)) :
    ∀ (g : GState) (x : String), ∀ v ∈ (g x).messages,
    v ∈ ((pairs.foldl (fun g p => deliverPair g p.1 p.2) g) x).messages := by
  induction pairs with
  | nil => intro g x v hv; exact hv
  | cons p rest ih =>
    intro g x v hv
    rw [List.foldl_cons]
    exact ih _ x v ((deliverPair_fields g p.1 p.2 x).2.2.2.1 v hv)

theorem foldl_deliver_progress {ids : List String}
    {nbrs : String → List String} {U : List Nat}
    (pairs : List (String × String)) :
    ∀ (g : GState), Inv ids nbrs U g →
    (∀ p ∈ pairs, p.1 ∈ ids ∧ p.2 ∈ ids) →
    ∀ {a b : String} {v : Nat}, (a, b) ∈ pairs → b ∈ nbrs a →
    v ∈ (g a).messages →
    v ∈ ((pairs.foldl (fun g p => deliverPair g p.1 p.2) g) b).messages := by
  induction pairs with
  | nil =>
    intro g _ _ a b v hmem
    cases hmem
  | cons p rest ih =>
    intro g inv hp a b v hmem hnb hv
    rw [List.foldl_cons]
    rcases List.mem_cons.mp hmem with heq | hmem2
    · subst heq
      exact foldl_deliver_mem_mono rest _ b v
        (deliverPair_progress inv (hp (a, b) (by simp)).1
          (hp (a, b) (by simp)).2 hnb hv)
    · exact ih _ (deliverPair_inv inv (hp p (by simp)).1 (hp p (by simp)).2)
        (fun q hq => hp q (by simp [hq])) hmem2 hnb
        ((deliverPair_fields g p.1 p.2 a).2.2.2.1 v hv)

theorem mem_allPairs {ids : List String} {a b : String} :
    (a, b) ∈ ids.flatMap (fun x => ids.map (fun y => (x, y))) ↔
      a ∈ ids ∧ b ∈ ids := by
  simp [List.mem_flatMap, List.mem_map]

theorem flushCycle_inv {ids : List String} {nbrs : String → List String}
    {U : List Nat} {g : GState} (inv : Inv ids nbrs U g) :
    Inv ids nbrs U (flushCycle ids g) :=
  foldl_deliver_inv _ g inv (fun p hp => by
    have := mem_allPairs.mp (by
      have : p = (p.1, p.2) := rfl
      rw [this] at hp
      exact hp)
    exact this)

theorem flushCycle_mem_mono {ids : List String} (g : GState) (x : String) :
    ∀ v ∈ (g x).messages, v ∈ ((flushCycle ids g) x).messages :=
  foldl_deliver_mem_mono _ g x

theorem flushCycle_progress {ids : List String}
    {nbrs : String → List String} {U : List Nat} {g : GState}
    (inv : Inv ids nbrs U g) {a b : String} {v : Nat}
    (ha : a ∈ ids) (hb : b ∈ ids) (hnb : b ∈ nbrs a)
    (hv : v ∈ (g a).messages) :
    v ∈ ((flushCycle ids g) b).messages :=
  foldl_deliver_progress _ g inv
    (fun p hp => by
      have : p = (p.1, p.2) := rfl
      rw [this] at hp
      exact mem_allPairs.mp hp)
    (mem_allPairs.mpr ⟨ha, hb⟩) hnb hv

theorem flushCycles_inv {ids : List String} {nbrs : String → List String}
    {U : List Nat} : ∀ (k : Nat) (g : GState), Inv ids nbrs U g →
    Inv ids nbrs U (flushCycles ids k g) := by
  intro k
  induction k with
  | zero => intro g inv; exact inv
  | succ k ih => intro g inv; exact ih _ (flushCycle_inv inv)

theorem reachList_self (nbrs : String → List String) :
    ∀ (k : Nat) (a : String), a ∈ reachList nbrs k a := by
  intro k a
  cases k with
  | zero => simp [reachList]
  | succ k => simp [reachList]

/-- After `k` cycles, a value reaches every node within `k` hops of a
node that had observed it. -/
theorem flushCycles_reach {ids : List String} {nbrs : String → List String}
    {U : List Nat} : ∀ (k : Nat) (g : GState), Inv ids nbrs U g →
    ∀ a ∈ ids, ∀ v ∈ (g a).messages, ∀ c ∈ reachList nbrs k a,
    v ∈ ((flushCycles ids k g) c).messages := by
  intro k
  induction k with
  | zero =>
    intro g inv a ha v hv c hc
    rcases List.mem_singleton.mp hc with rfl
    exact hv
  | succ k ih =>
    intro g inv a ha v hv c hc
    rw [show flushCycles ids (k + 1) g = flushCycles ids k (flushCycle ids g)
      from rfl]
    rcases List.mem_cons.mp hc with rfl | hc2
    · exact ih _ (flushCycle_inv inv) c ha v
        (flushCycle_mem_mono g c v hv) c (reachList_self nbrs k c)
    · obtain ⟨b, hb, hcb⟩ := List.mem_flatMap.mp hc2
      exact ih _ (flushCycle_inv inv) b (inv.nbrs_sub a ha b hb) v
        (flushCycle_progress inv ha (inv.nbrs_sub a ha b hb) hb hv) c hcb


theorem findIdx?_isSome_of_mem (ids : List String) (me : String)
    (h : me ∈ ids) : (ids.findIdx? (fun id => id == me)).isSome := by
  cases hf : ids.findIdx? (fun id => id == me) with
  | some p => rfl
  | none =>
    rw [List.findIdx?_eq_none_iff] at hf
    have := hf me h
    simp at this
theorem setupNode_eq (ids : List String) (me : String) (p : Nat)
    (hfi : ids.findIdx? (fun id => id == me) = some p) :
    setupNode ids me =
      { remote_node_handlers := initHandlers ids [],
        our_neighbors := strideNeighbors ids p,
        messages := [], all_node_ids := ids, our_id := me } := by
  unfold setupNode
  simp only [show handleEnvelope NodeState.initial ⟨"c0", me, .init me ids⟩
      = .ok { remote_node_handlers := initHandlers ids [],
              our_neighbors := [], messages := [],
              all_node_ids := ids, our_id := me }
          [⟨me, "c0", .initOk⟩]
    from rfl]
  simp only [show handleEnvelope
        { remote_node_handlers := initHandlers ids [],
          our_neighbors := [], messages := [],
          all_node_ids := ids, our_id := me }
        ⟨"c0", me, .topology []⟩
      = .ok { remote_node_handlers := initHandlers ids [],
              our_neighbors := strideNeighbors ids p,
              messages := [], all_node_ids := ids, our_id := me }
          [⟨me, "c0", .topologyOk⟩]
    from by simp [handleEnvelope, hfi, Envelope.reply]]

theorem strideNbrs_sub (ids : List String) (x : String) :
    ∀ b ∈ strideNbrs ids x, b ∈ ids := by
  unfold strideNbrs
  cases hfi : ids.findIdx? (fun id => id == x) with
  | none => intro b hb; cases hb
  | some p => exact strideNeighbors_subset ids p

theorem strideNbrs_no_self (ids : List String) (x : String)
    (hnd : ids.Nodup) : x ∉ strideNbrs ids x := by
  unfold strideNbrs
  cases hfi : ids.findIdx? (fun id => id == x) with
  | none => exact List.not_mem_nil x
  | some p =>
    obtain ⟨hlt, hbeq, _⟩ := List.findIdx?_eq_some_iff_getElem.mp hfi
    have hval : ids[p] = x := by simpa using hbeq
    exact self_not_mem_strideNeighbors ids p x hnd
      (List.getElem?_eq_some.mpr ⟨hlt, hval⟩)

/-- The freshly initialized-and-topologized cluster satisfies the
invariant (for any value universe `U`). -/
theorem setupG_inv (ids : List String) (U : List Nat) (hnd : ids.Nodup) :
    Inv ids (strideNbrs ids) U (setupG ids) := by
  have hnode : ∀ x ∈ ids, setupG ids x =
      { remote_node_handlers := initHandlers ids [],
        our_neighbors := strideNbrs ids x,
        messages := [], all_node_ids := ids, our_id := x } := by
    intro x hx
    obtain ⟨p, hp⟩ := Option.isSome_iff_exists.mp
      (findIdx?_isSome_of_mem ids x hx)
    rw [show setupG ids x = setupNode ids x from rfl, setupNode_eq ids x p hp]
    unfold strideNbrs
    rw [hp]
  have hhd : ∀ x ∈ ids,
      (setupG ids x).remote_node_handlers = initHandlers ids [] := by
    intro x hx
    rw [hnode x hx]
  have hmsg : ∀ x ∈ ids, (setupG ids x).messages = [] := by
    intro x hx
    rw [hnode x hx]
  have hnbr : ∀ x ∈ ids, (setupG ids x).our_neighbors = strideNbrs ids x := by
    intro x hx
    rw [hnode x hx]
  have hfind : ∀ (k : String), k ∈ ids →
      RemoteMap.find? (initHandlers ids []) k = some RemoteNodeHandler.new :=
    fun k hk => initHandlers_find?_mem ids [] k hk
  refine ⟨hnbr, fun x _ => strideNbrs_sub ids x,
    fun x _ => strideNbrs_no_self ids x hnd, ?_, ?_, ?_, ?_, ?_⟩
  · intro x hx k hk
    rw [hhd x hx, hfind k hk]
    rfl
  · intro x hx k hdl hfd v hv
    rw [hhd x hx] at hfd
    by_cases hk : k ∈ ids
    · rw [hfind k hk] at hfd
      cases hfd
      cases hv
    · rw [initHandlers_find?_not_mem ids [] k hk] at hfd
      simp [RemoteMap.find?] at hfd
  · intro x hx
    unfold bufferOf
    rw [hhd x hx, hfind x hx]
    rfl
  · intro x hx v hv
    rw [hmsg x hx] at hv
    cases hv
  · intro x hx v hv
    rw [hmsg x hx] at hv
    cases hv


/-- One client broadcast step: the handler cannot panic under the
invariant, the target observes the value, and the invariant is
preserved. -/
theorem broadcastStep_inv {ids : List String} {nbrs : String → List String}
    {U : List Nat} {g : GState} (inv : Inv ids nbrs U g) {t : String}
    {v : Nat} (ht : t ∈ ids) (hU : v ∈ U) :
    ∃ st', observeAndFanout (g t) v = some st'
      ∧ v ∈ st'.messages
      ∧ Inv ids nbrs U (GState.set g t st') := by
  have hcov : ∀ n ∈ (g t).our_neighbors,
      (RemoteMap.find? (g t).remote_node_handlers n).isSome := by
    intro n hn
    rw [inv.neighbors_eq t ht] at hn
    exact inv.keys_cover t ht n (inv.nbrs_sub t ht n hn)
  obtain ⟨st', ho⟩ := Option.isSome_iff_exists.mp
    (observeAndFanout_isSome (g t) v hcov)
  have eff := observeAndFanout_effect ho
  have hgA : GState.set g t st' t = st' := GState.set_same _ _ _
  have hgO : ∀ y, y ≠ t → GState.set g t st' y = g y :=
    fun y hy => GState.set_other _ _ _ _ hy
  have hmono : ∀ y, ∀ w ∈ (g y).messages,
      w ∈ (GState.set g t st' y).messages := by
    intro y w hw
    by_cases hyt : y = t
    · subst hyt
      rw [hgA]
      exact eff.mem_mono w hw
    · rw [hgO y hyt]
      exact hw
  refine ⟨st', ho, eff.batch_mem v (by simp), ?_⟩
  refine ⟨?_, inv.nbrs_sub, inv.no_self_nbr, ?_, ?_, ?_, ?_, ?_⟩
  · intro x hx
    by_cases hxt : x = t
    · subst hxt
      rw [hgA, eff.neighbors_eq]
      exact inv.neighbors_eq x hx
    · rw [hgO x hxt]
      exact inv.neighbors_eq x hx
  · intro x hx k hk
    by_cases hxt : x = t
    · subst hxt
      rw [hgA, eff.keys_eq]
      exact inv.keys_cover x hx k hk
    · rw [hgO x hxt]
      exact inv.keys_cover x hx k hk
  · intro x hx k hdl hfd w hw
    by_cases hxt : x = t
    · subst hxt
      rw [hgA] at hfd ⊢
      obtain ⟨hdl0, extra, hf0, heq, hextra⟩ := eff.buffer_grow k hdl hfd
      rw [heq] at hw
      rcases List.mem_append.mp hw with h' | h'
      · exact eff.mem_mono w (inv.wf x hx k hdl0 hf0 w h')
      · exact (hextra w h').1
    · rw [hgO x hxt] at hfd ⊢
      exact inv.wf x hx k hdl hfd w hw
  · intro x hx
    by_cases hxt : x = t
    · subst hxt
      rw [hgA]
      have hnn : x ∉ (g x).our_neighbors := by
        rw [inv.neighbors_eq x hx]
        exact inv.no_self_nbr x hx
      unfold bufferOf
      rw [eff.non_neighbor_frame x hnn]
      exact inv.selfbuf x hx
    · rw [hgO x hxt]
      exact inv.selfbuf x hx
  · intro x hx w hw c hc
    by_cases hxt : x = t
    · subst hxt
      rw [hgA] at hw
      by_cases hwold : w ∈ (g x).messages
      · rcases inv.pend x hx w hwold c hc with h' | h'
        · left
          rw [hgA]
          exact eff.bufferOf_mono c w h'
        · right
          exact hmono c w h'
      · left
        rw [hgA]
        refine eff.bufferOf_new hw hwold ?_ ?_
        · rw [inv.neighbors_eq x hx]
          exact hc
        · exact inv.keys_cover x hx c (inv.nbrs_sub x hx c hc)
    · rw [hgO x hxt] at hw
      rcases inv.pend x hx w hw c hc with h' | h'
      · left
        rw [hgO x hxt]
        exact h'
      · right
        exact hmono c w h'
  · intro x hx w hw
    by_cases hxt : x = t
    · subst hxt
      rw [hgA] at hw
      rcases eff.mem_bound w hw with h' | h'
      · exact inv.ubound x hx w h'
      · rcases List.mem_singleton.mp h' with rfl
        exact hU
    · rw [hgO x hxt] at hw
      exact inv.ubound x hx w hw

/-- Broadcast delivery only grows observed sets. -/
theorem applyBroadcasts_mem_mono (reqs : List (String × Nat)) :
    ∀ (g : GState) (x : String), ∀ v ∈ (g x).messages,
    v ∈ ((applyBroadcasts reqs g) x).messages := by
  induction reqs with
  | nil => intro g x v hv; exact hv
  | cons r rest ih =>
    intro g x v hv
    unfold applyBroadcasts
    simp only [List.foldl_cons]
    cases ho : observeAndFanout (g r.1) r.2 with
    | none =>
      rw [show handleEnvelope (g r.1) ⟨"c0", r.1, .broadcast r.2⟩ = .panic
        from by simp [handleEnvelope, ho]]
      exact ih g x v hv
    | some st' =>
      rw [handleBroadcast_eq "c0" r.1 r.2 ho]
      refine ih _ x v ?_
      show v ∈ ((GState.set g r.1 st') x).messages
      by_cases hxt : x = r.1
      · subst hxt
        rw [GState.set_same]
        exact (observeAndFanout_effect ho).mem_mono v hv
      · rw [GState.set_other _ _ _ _ hxt]
        exact hv

/-- Delivering every queued broadcast preserves the invariant, and every
broadcast value is observed at its target. -/
theorem applyBroadcasts_inv {ids : List String} {nbrs : String → List String}
    {U : List Nat} (reqs : List (String × Nat)) :
    ∀ (g : GState), Inv ids nbrs U g →
    (∀ r ∈ reqs, r.1 ∈ ids ∧ r.2 ∈ U) →
    Inv ids nbrs U (applyBroadcasts reqs g)
    ∧ ∀ r ∈ reqs, r.2 ∈ ((applyBroadcasts reqs g) r.1).messages := by
  induction reqs with
  | nil =>
    intro g inv _
    exact ⟨inv, fun r hr => absurd hr (List.not_mem_nil r)⟩
  | cons r rest ih =>
    intro g inv hr
    obtain ⟨st', ho, hv, inv'⟩ := broadcastStep_inv inv
      (hr r (by simp)).1 (hr r (by simp)).2
    have hstep : applyBroadcasts (r :: rest) g
        = applyBroadcasts rest (GState.set g r.1 st') := by
      unfold applyBroadcasts
      rw [List.foldl_cons, handleBroadcast_eq "c0" r.1 r.2 ho]
    rw [hstep]
    obtain ⟨hinv2, hmem2⟩ := ih _ inv' (fun q hq => hr q (by simp [hq]))
    refine ⟨hinv2, ?_⟩
    intro q hq
    rcases List.mem_cons.mp hq with rfl | hq2
    · -- the head request: monotone through the remaining broadcasts
      refine applyBroadcasts_mem_mono rest _ q.1 q.2 ?_
      rw [GState.set_same]
      exact hv
    · exact hmem2 q hq2


/-- Claim C4: eventual convergence.  For a duplicate-free cluster whose
stride gossip graph reaches every node from every node within `d` hops,
deliver any finite batch of client `Broadcast` requests to any nodes of
the freshly initialized-and-topologized cluster; after `d` synchronous
flush cycles (each cycle delivers every pending `Sync` and its
acknowledgment through the actual dispatch), every node's `Read` replies
with its observed set, and that set has the same membership on every
node: exactly the union of the broadcast values. -/
theorem claim_C4_convergence (ids : List String) (reqs : List (String × Nat))
    (d : Nat) (hnd : ids.Nodup)
    (htgt : ∀ r ∈ reqs, r.1 ∈ ids)
    (hreach : ∀ a ∈ ids, ∀ b ∈ ids, b ∈ reachList (strideNbrs ids) d a) :
    ∀ b ∈ ids, ∀ c : String,
      handleEnvelope
          ((flushCycles ids d (applyBroadcasts reqs (setupG ids))) b)
          ⟨c, b, .read⟩
        = .ok ((flushCycles ids d (applyBroadcasts reqs (setupG ids))) b)
          [⟨b, c, .readOk
            (((flushCycles ids d
                (applyBroadcasts reqs (setupG ids))) b).messages)⟩]
      ∧ ∀ v : Nat,
          (v ∈ ((flushCycles ids d
              (applyBroadcasts reqs (setupG ids))) b).messages
            ↔ ∃ r ∈ reqs, r.2 = v) := by
  intro b hb c
  have hreqU : ∀ r ∈ reqs, r.1 ∈ ids ∧ r.2 ∈ reqs.map Prod.snd := by
    intro r hr
    exact ⟨htgt r hr, List.mem_map.mpr ⟨r, hr, rfl⟩⟩
  obtain ⟨inv1, hmem1⟩ := applyBroadcasts_inv reqs (setupG ids)
    (setupG_inv ids (reqs.map Prod.snd) hnd) hreqU
  have invF := flushCycles_inv d _ inv1
  constructor
  · rfl
  · intro v
    constructor
    · intro hv
      have := invF.ubound b hb v hv
      obtain ⟨r, hr, hrv⟩ := List.mem_map.mp this
      exact ⟨r, hr, hrv⟩
    · rintro ⟨r, hr, rfl⟩
      exact flushCycles_reach d _ inv1 r.1 (htgt r hr) r.2 (hmem1 r hr) b
        (hreach r.1 (htgt r hr) b hb)

/-- Claim C4 witness: eight nodes, broadcasts `5` at `n0` and `7` at
`n3`, four cycles; node `n7` serves `Read` from its converged set, which
contains `7`. -/
theorem claim_C4_witness :
    ((["n0", "n1", "n2", "n3", "n4", "n5", "n6", "n7"] : List String).Nodup)
    ∧ (∀ r ∈ ([("n0", 5), ("n3", 7)] : List (String × Nat)),
        r.1 ∈ (["n0", "n1", "n2", "n3", "n4", "n5", "n6", "n7"] :
          List String))
    ∧ (∀ a ∈ (["n0", "n1", "n2", "n3", "n4", "n5", "n6", "n7"] :
          List String),
        ∀ b ∈ (["n0", "n1", "n2", "n3", "n4", "n5", "n6", "n7"] :
          List String),
        b ∈ reachList
          (strideNbrs ["n0", "n1", "n2", "n3", "n4", "n5", "n6", "n7"]) 4 a)
    ∧ handleEnvelope
        ((flushCycles ["n0", "n1", "n2", "n3", "n4", "n5", "n6", "n7"] 4
          (applyBroadcasts [("n0", 5), ("n3", 7)]
            (setupG ["n0", "n1", "n2", "n3", "n4", "n5", "n6", "n7"]))) "n7")
        ⟨"c0", "n7", .read⟩
      = .ok ((flushCycles ["n0", "n1", "n2", "n3", "n4", "n5", "n6", "n7"] 4
          (applyBroadcasts [("n0", 5), ("n3", 7)]
            (setupG ["n0", "n1", "n2", "n3", "n4", "n5", "n6", "n7"]))) "n7")
        [⟨"n7", "c0", .readOk
          (((flushCycles ["n0", "n1", "n2", "n3", "n4", "n5", "n6", "n7"] 4
            (applyBroadcasts [("n0", 5), ("n3", 7)]
              (setupG ["n0", "n1", "n2", "n3", "n4", "n5", "n6", "n7"])))
              "n7").messages)⟩]
    ∧ (7 ∈ ((flushCycles ["n0", "n1", "n2", "n3", "n4", "n5", "n6", "n7"] 4
          (applyBroadcasts [("n0", 5), ("n3", 7)]
            (setupG ["n0", "n1", "n2", "n3", "n4", "n5", "n6", "n7"]))) "n7").messages
        ↔ ∃ r ∈ ([("n0", 5), ("n3", 7)] : List (String × Nat)), r.2 = 7) :=
  ⟨by decide, by decide, by decide,
    (claim_C4_convergence ["n0", "n1", "n2", "n3", "n4", "n5", "n6", "n7"]
      [("n0", 5), ("n3", 7)] 4 (by decide) (by decide) (by decide)
      "n7" (by decide) "c0").1,
    (claim_C4_convergence ["n0", "n1", "n2", "n3", "n4", "n5", "n6", "n7"]
      [("n0", 5), ("n3", 7)] 4 (by decide) (by decide) (by decide)
      "n7" (by decide) "c0").2 7⟩

end BroadcastEff
